import Mathlib

/-!
Verification development for the MPEG-DASH demuxer core
(src/libavformat/dashdec.c).

The C code is shallowly embedded: each relevant C function becomes a Lean
definition of the same name; the growable arrays of the C structs become
lists; 64-bit signed arithmetic is modelled on Int (the claims under study
never exercise 64-bit wraparound), C integer division (truncation toward
zero) is Int.tdiv; the wall clock read by get_current_time_in_sec is passed
in as an explicit argument named now; external I/O (HTTP fetches, the XML
reader, the inner container parsers) is abstracted into explicit inputs and
success flags, as noted at each definition.
-/

namespace DashDec

/-- AVERROR_INVALIDDATA = FFERRTAG of the four bytes I N D A. -/
def AVERROR_INVALIDDATA : Int := -(73 + 78 * 256 + 68 * 65536 + 65 * 16777216)

/-- AVERROR_INPUT_CHANGED from libavutil/error.h. -/
def AVERROR_INPUT_CHANGED : Int := -0x636e6701

/-- AVERROR(ENOSYS): POSIX ENOSYS is 38, AVERROR negates it. -/
def AVERROR_ENOSYS : Int := -38

/-- AVDISCARD_ALL from libavcodec: discard everything. -/
def AVDISCARD_ALL : Int := 48

/-- AVSEEK_FLAG_BACKWARD bit. -/
def AVSEEK_FLAG_BACKWARD : Nat := 1

/-- AVSEEK_FLAG_BYTE bit. -/
def AVSEEK_FLAG_BYTE : Nat := 2

/-- struct timeline (one SegmentTimeline S element).  The source field
named repeat is rendered srepeat because repeat is reserved in Lean. -/
structure timeline where
  starttime : Int
  srepeat : Int
  duration : Int
deriving DecidableEq

/-- struct fragment: one byte range to fetch. -/
structure fragment where
  url_offset : Int
  size : Int
  url : String
deriving DecidableEq

/-- struct representation: the sequencer-relevant and refresh-relevant
fields.  Pointer fields that only carry open/closed information (input,
ctx, assoc_stream) are Bools; n_fragments and n_timelines are the list
lengths; framerate is kept as a numerator/denominator pair. -/
structure representation where
  id : Option String := none
  codecs : Option String := none
  scantype : Option String := none
  bandwidth : Int := 0
  framerate_num : Int := 0
  framerate_den : Int := 1
  width : Int := 0
  height : Int := 0
  has_assoc_stream : Bool := true
  discard : Int := 0
  ctx_open : Bool := false
  input_open : Bool := false
  fragments : List fragment := []
  timelines : List timeline := []
  first_seq_no : Int := 0
  last_seq_no : Int := 0
  start_number : Int := 1
  fragment_duration : Int := 0
  fragment_timescale : Int := 0
  presentation_timeoffset : Int := 0
  cur_seq_no : Int := 0
  cur_seg_offset : Int := 0
  cur_seg_size : Int := 0
  period_media_presentation_duration : Int := 0
  period_start : Int := 0
  period_duration : Int := 0
  init_loaded : Bool := false
  init_sec_buf_read_offset : Int := 0
  cur_timestamp : Int := 0
  is_restart_needed : Bool := false
deriving DecidableEq

/-- DASHContext: MPD attributes, option flags, and the three
representation lists. -/
structure DASHContext where
  base_url : Option String := none
  videos : List representation := []
  audios : List representation := []
  subtitles : List representation := []
  media_presentation_duration : Int := 0
  suggested_presentation_delay : Int := 0
  availability_start_time : Int := 0
  publish_time : Int := 0
  minimum_update_period : Int := 0
  time_shift_buffer_depth : Int := 0
  min_buffer_time : Int := 0
  period_duration : Int := 0
  period_start : Int := 0
  use_timeline_segment_offset_correction : Bool := true
  fetch_completed_segments_only : Bool := true
  is_live : Bool := false
deriving DecidableEq

/-! ## get_segment_start_time_based_on_timeline (dashdec.c lines 275-312) -/

/-- The inner j-loop of get_segment_start_time_based_on_timeline:
for (j = 0; j < repeat; j++) i.e. max(repeat,0) iterations, each doing
num++, an equality test against the target with early return of the
running start time, then start_time += duration.  Sum.inl is the early
return, Sum.inr carries (num, start_time) out of the loop. -/
def startWalkRepeat (d target : Int) : Nat → Int → Int → Int ⊕ (Int × Int)
  | 0, num, st => Sum.inr (num, st)
  | j + 1, num, st =>
    let num := num + 1
    if num = target then Sum.inl st
    else startWalkRepeat d target j (num) (st + d)

/-- The i-loop of get_segment_start_time_based_on_timeline, carrying the
running segment counter num and start_time.  Falling off the end of the
list returns the running start_time (the goto finish fall-through). -/
def startWalk (target : Int) : List timeline → Int → Int → Int
  | [], _, st => st
  | e :: rest, num, st =>
    let st := if e.starttime > 0 then e.starttime else st
    if num = target then st
    else
      let st := st + e.duration
      if e.srepeat = -1 then e.duration * target
      else
        match startWalkRepeat e.duration target e.srepeat.toNat num st with
        | Sum.inl r => r
        | Sum.inr (num, st) => startWalk target rest (num + 1) st

/-- get_segment_start_time_based_on_timeline: if n_timelines is nonzero,
optionally normalize the target by first_seq_no (the
use_timeline_segment_offset_correction option), then walk; otherwise the
initial start_time 0 is returned. -/
def get_segment_start_time_based_on_timeline (c : DASHContext)
    (pls : representation) (cur_seq_no : Int) : Int :=
  if pls.timelines.isEmpty then 0
  else
    let t := if c.use_timeline_segment_offset_correction ∧
                pls.first_seq_no ≤ cur_seq_no
             then cur_seq_no - pls.first_seq_no else cur_seq_no
    startWalk t pls.timelines 0 0

/-! ## calc_next_seg_no_from_timelines (dashdec.c lines 314-345) -/

/-- The inner j-loop of calc_next_seg_no_from_timelines: num++, then the
strict comparison of the running start time against cur_time with early
return of num, then start_time += duration. -/
def nextWalkRepeat (d t : Int) : Nat → Int → Int → Int ⊕ (Int × Int)
  | 0, num, st => Sum.inr (num, st)
  | j + 1, num, st =>
    let num := num + 1
    if st > t then Sum.inl num
    else nextWalkRepeat d t j num (st + d)

/-- The i-loop of calc_next_seg_no_from_timelines; falling off the end of
the list returns the sentinel -1 (bypassing the finish label, hence no
offset correction on that path). -/
def nextWalk (t : Int) : List timeline → Int → Int → Int
  | [], _, _ => -1
  | e :: rest, num, st =>
    let st := if e.starttime > 0 then e.starttime else st
    if st > t then num
    else
      let st := st + e.duration
      match nextWalkRepeat e.duration t e.srepeat.toNat num st with
      | Sum.inl r => r
      | Sum.inr (num, st) => nextWalk t rest (num + 1) st

/-- calc_next_seg_no_from_timelines: walk, then apply the
use_timeline_segment_offset_correction offset at the finish label.  The
fall-through -1 return is not corrected (in the walk num is always
nonnegative, so only the fall-through produces -1). -/
def calc_next_seg_no_from_timelines (c : DASHContext)
    (pls : representation) (cur_time : Int) : Int :=
  let num := nextWalk cur_time pls.timelines 0 0
  if num = -1 then -1
  else if c.use_timeline_segment_offset_correction then num + pls.first_seq_no
  else num

/-! ## Spec-side reference walk for claim C1 -/

/-- Modelled from the spec, section 4.3 step 3: for each of the repeat
additional repetitions, increment num, return start_time if matched, else
add entry.duration.  none means the repetitions were exhausted without a
match, carrying the updated counter and running start time. -/
def spec_walk_reps (dur target : Int) : Nat → Int → Int → Option Int × Int × Int
  | 0, num, st => (none, num, st)
  | Nat.succ k, num, st =>
    if num + 1 = target then (some st, num + 1, st)
    else spec_walk_reps dur target k (num + 1) (st + dur)

/-- Modelled from the spec, section 4.3: the reference walk mapping a
sequence number to a segment start time.  Walk entries in order with a
running start_time and counter num; an entry with start_time > 0
overwrites the running start_time; return it when num reaches the target;
a repeat == -1 entry reached before the target is matched yields the
closed form duration * target; each repetition adds entry.duration and
step 4 increments num past the entry. -/
def spec_reference_walk (target : Int) : List timeline → Int → Int → Int
  | [], _, st => st
  | e :: rest, num, st =>
    let st := if 0 < e.starttime then e.starttime else st
    if num = target then st
    else if e.srepeat = -1 then e.duration * target
    else
      match spec_walk_reps e.duration target e.srepeat.toNat num (st + e.duration) with
      | (some r, _, _) => r
      | (none, num, st) => spec_reference_walk target rest (num + 1) st

/-! ## Denotational helpers: the flattened list of segment start times

These are proof-side helpers, not C functions: segmentStarts entries pos is
the list of start times of the segments the walks of lines 275-345 visit,
in visiting order, when the running start time begins at pos. -/

/-- n segment start times beginning at pos, spaced d apart. -/
def entryStarts (pos d : Int) : Nat → List Int
  | 0 => []
  | n + 1 => pos :: entryStarts (pos + d) d n

/-- The start times of all segments described by a timeline, beginning
with running position pos: entry overrides are applied, and an entry with
repeat r contributes max(r,0)+1 segments (matching the walks, which run
the inner loop Int.toNat r times). -/
def segmentStarts : List timeline → Int → List Int
  | [], _ => []
  | e :: rest, pos =>
    let p := if e.starttime > 0 then e.starttime else pos
    entryStarts p e.duration (e.srepeat.toNat + 1) ++
      segmentStarts rest (p + ((e.srepeat.toNat : Int) + 1) * e.duration)

/-- Number of segments described by a timeline. -/
def totalSegs (l : List timeline) : Nat :=
  (l.map (fun e => e.srepeat.toNat + 1)).sum

/-- Index of the first element strictly greater than t, if any. -/
def firstOver (t : Int) : List Int → Option Nat
  | [] => none
  | x :: xs => if x > t then some 0 else (firstOver t xs).map Nat.succ

/-- Well-formedness of a timeline starting at running position pos, per
the SegmentTimeline semantics quoted at dashdec.c lines 46-70: durations
are positive, repeat counts are explicit (no repeat until end of period),
and an explicit start time never jumps backwards. -/
def wfFrom : List timeline → Int → Prop
  | [], _ => True
  | e :: rest, pos =>
    1 ≤ e.duration ∧ 0 ≤ e.srepeat ∧ (e.starttime ≤ 0 ∨ pos ≤ e.starttime) ∧
      wfFrom rest ((if e.starttime > 0 then e.starttime else pos) +
        ((e.srepeat.toNat : Int) + 1) * e.duration)

/-! ## calc_max_seg_no (dashdec.c lines 1546-1573) and
calc_cur_seg_no (lines 1485-1527).  The wall clock
get_current_time_in_sec() is the explicit argument now. -/

/-- The i-loop of calc_max_seg_no over timeline entries: a repeat == -1
entry replaces the count with period_duration divided by the per-segment
length, any other entry adds its repeat count. -/
def maxSegLoop (period_duration ts : Int) : List timeline → Int → Int
  | [], num => num
  | e :: rest, num =>
    if e.srepeat = -1 then
      maxSegLoop period_duration ts rest
        (Int.tdiv period_duration (Int.tdiv e.duration ts))
    else maxSegLoop period_duration ts rest (num + e.srepeat)

/-- calc_max_seg_no. -/
def calc_max_seg_no (now : Int) (pls : representation) (c : DASHContext) : Int :=
  if 0 < pls.fragments.length then
    pls.first_seq_no + pls.fragments.length - 1
  else if 0 < pls.timelines.length then
    maxSegLoop c.period_duration pls.fragment_timescale pls.timelines
      (pls.first_seq_no + pls.timelines.length - 1)
  else if c.is_live ∧ pls.fragment_duration ≠ 0 then
    let num := pls.first_seq_no +
      Int.tdiv ((now - c.availability_start_time) * pls.fragment_timescale)
        pls.fragment_duration
    if pls.first_seq_no < num ∧ c.fetch_completed_segments_only then num - 1
    else num
  else if pls.fragment_duration ≠ 0 then
    pls.first_seq_no +
      Int.tdiv (c.media_presentation_duration * pls.fragment_timescale)
        pls.fragment_duration
  else 0

/-- calc_cur_seg_no.  The three live styles, then the VOD fall-through to
first_seq_no.  0xFFFFFFFF is the literal target passed on line 1497. -/
def calc_cur_seg_no (now : Int) (c : DASHContext) (pls : representation) : Int :=
  if c.is_live then
    if 0 < pls.fragments.length then
      pls.first_seq_no
    else if 0 < pls.timelines.length then
      let start_time_offset :=
        get_segment_start_time_based_on_timeline c pls 0xFFFFFFFF -
          60 * pls.fragment_timescale
      let num := calc_next_seg_no_from_timelines c pls start_time_offset
      if num = -1 then pls.first_seq_no
      else if ¬ c.use_timeline_segment_offset_correction then
        num + pls.first_seq_no
      else num
    else if pls.fragment_duration ≠ 0 then
      if pls.presentation_timeoffset ≠ 0 then
        pls.first_seq_no +
          Int.tdiv ((now - c.availability_start_time) * pls.fragment_timescale -
            pls.presentation_timeoffset) pls.fragment_duration -
          c.min_buffer_time
      else if 0 < c.publish_time ∧ c.availability_start_time = 0 then
        let num :=
          if c.min_buffer_time ≠ 0 then
            pls.first_seq_no +
              Int.tdiv ((c.publish_time + pls.fragment_duration -
                c.suggested_presentation_delay) * pls.fragment_timescale)
                pls.fragment_duration - c.min_buffer_time
          else
            pls.first_seq_no +
              Int.tdiv ((c.publish_time - c.time_shift_buffer_depth +
                pls.fragment_duration - c.suggested_presentation_delay) *
                pls.fragment_timescale) pls.fragment_duration
        if pls.first_seq_no < num ∧
            (c.time_shift_buffer_depth = 0 ∧ c.suggested_presentation_delay = 0) ∧
            c.fetch_completed_segments_only then
          num - 1
        else num
      else
        let num := pls.first_seq_no +
          Int.tdiv ((now - c.availability_start_time -
            c.suggested_presentation_delay) * pls.fragment_timescale)
            pls.fragment_duration
        if pls.first_seq_no < num ∧ c.suggested_presentation_delay = 0 ∧
            c.fetch_completed_segments_only then
          num - 1
        else num
    else 0
  else pls.first_seq_no

/-! ## get_duration_insec (dashdec.c lines 231-273)

The C loop scans with sscanf using %lf%c%n.  The %lf conversion is
modelled as its decimal-literal subset: optional whitespace, optional
sign, digits with an optional fractional part.  Exponent, hexadecimal,
inf and nan spellings of strtod are outside the model; the (uint32_t)
cast of the parsed double is exact integer truncation on this subset (a
negative value, undefined in C for magnitude at least 1, is modelled as
0).  The final expression is uint32 arithmetic, hence the mod 2^32. -/

/-- Decimal value of a digit list, most significant first. -/
def natOfDigits (ds : List Char) : Nat :=
  ds.foldl (fun a ch => a * 10 + (ch.toNat - 48)) 0

/-- The optional sign accepted by %lf: true means a leading minus. -/
def dropSign : List Char → Bool × List Char
  | '-' :: r => (true, r)
  | '+' :: r => (false, r)
  | cs => (false, cs)

/-- The optional fractional part accepted by %lf: a dot followed by
digits; returns the fraction digits and the rest. -/
def dropFrac : List Char → List Char × List Char
  | '.' :: r => r.span Char.isDigit
  | cs => ([], cs)

/-- One sscanf %lf%c%n step: returns the truncated numeric value, the
character matched by %c, and the rest of the input; none exactly when
sscanf would not return 2 (no number at the front, or the input ends
right after the number). -/
def scanNumber (cs : List Char) : Option (Nat × Char × List Char) :=
  let sg := dropSign (cs.dropWhile Char.isWhitespace)
  let dsp := sg.2.span Char.isDigit
  let fsp := dropFrac dsp.2
  if dsp.1.isEmpty ∧ fsp.1.isEmpty then none
  else
    match fsp.2 with
    | [] => none
    | u :: rest => some (if sg.1 then 0 else natOfDigits dsp.1, u, rest)

theorem spanSnd_length_le (p : Char → Bool) (cs : List Char) :
    (cs.span p).2.length ≤ cs.length := by
  rw [List.span_eq_take_drop]
  exact (List.dropWhile_sublist p).length_le

theorem dropSign_length_le (cs : List Char) :
    (dropSign cs).2.length ≤ cs.length := by
  unfold dropSign
  split <;> simp

theorem dropFrac_length_le (cs : List Char) :
    (dropFrac cs).2.length ≤ cs.length := by
  unfold dropFrac
  split
  · next r =>
    have := spanSnd_length_le Char.isDigit r
    simp only [List.length_cons]
    omega
  · simp

theorem scanNumber_length {cs : List Char} {v : Nat} {u : Char}
    {rest : List Char} (h : scanNumber cs = some (v, u, rest)) :
    rest.length < cs.length := by
  simp only [scanNumber] at h
  split at h
  · exact absurd h (by simp)
  · split at h
    · exact absurd h (by simp)
    · next u' rest' hm =>
      have hdw : (cs.dropWhile Char.isWhitespace).length ≤ cs.length :=
        (List.dropWhile_sublist Char.isWhitespace).length_le
      have h2 := dropSign_length_le (cs.dropWhile Char.isWhitespace)
      have h3 := spanSnd_length_le Char.isDigit
        (dropSign (cs.dropWhile Char.isWhitespace)).2
      have h4 := dropFrac_length_le
        ((dropSign (cs.dropWhile Char.isWhitespace)).2.span Char.isDigit).2
      rw [hm] at h4
      simp only [Option.some.injEq, Prod.mk.injEq] at h
      obtain ⟨-, -, hr⟩ := h
      subst hr
      simp only [List.length_cons] at h4
      omega

/-- The while loop of get_duration_insec, carrying the four uint32
fields.  A P or T character is skipped; otherwise one %lf%c%n scan is
performed: on scan failure the function returns 0 (the parser-error
path), on success the D/H/M/S unit assigns the truncated value to its
field and any other unit character is ignored; at the end of the input
the uint32 expression ((days*24+hours)*60+mins)*60+secs is returned. -/
def durLoop : List Char → Nat → Nat → Nat → Nat → Nat
  | [], days, hours, mins, secs =>
    (((days * 24 + hours) * 60 + mins) * 60 + secs) % 2 ^ 32
  | 'P' :: rest, days, hours, mins, secs => durLoop rest days hours mins secs
  | 'T' :: rest, days, hours, mins, secs => durLoop rest days hours mins secs
  | cs, days, hours, mins, secs =>
    match hsc : scanNumber cs with
    | none => 0
    | some (v, u, rest) =>
      match u with
      | 'D' => durLoop rest (v % 2 ^ 32) hours mins secs
      | 'H' => durLoop rest days (v % 2 ^ 32) mins secs
      | 'M' => durLoop rest days hours (v % 2 ^ 32) secs
      | 'S' => durLoop rest days hours mins (v % 2 ^ 32)
      | _ => durLoop rest days hours mins secs
termination_by cs _ _ _ _ => cs.length
decreasing_by
  all_goals first
    | (simp only [List.length_cons]; omega)
    | (exact scanNumber_length hsc)

/-- get_duration_insec: all four fields start at 0. -/
def get_duration_insec (duration : List Char) : Nat :=
  durLoop duration 0 0 0 0

/-! ## Period selection in parse_manifest (dashdec.c lines 1393-1452)

parse_manifest interleaves XML traversal with the Period scan; the scan
itself is pure and is extracted here.  A periodNode is the (start,
duration) attribute pair of one Period element in document order
(get_duration_insec values, hence uint32, kept as Nat).  The scan state
mirrors the locals matching_period_node, default_period_node,
min_period_diff and the context fields the loop writes. -/

structure periodNode where
  pstart : Nat
  pduration : Nat
deriving DecidableEq

structure PeriodScanState where
  matching_period_node : Option Nat
  default_period_node : Option Nat
  min_period_diff : Int
  period_start : Int
  period_duration : Int
  media_presentation_duration : Int
deriving DecidableEq

/-- The default-selection half of one Period iteration (lines
1414-1427): while no Period has matched, a Period whose start is at
least the remembered period_start becomes the new default and its start
becomes the remembered period_start. -/
def periodStepDefault (st : PeriodScanState) (idx : Nat)
    (p : periodNode) : PeriodScanState :=
  if st.matching_period_node = none ∧ st.period_start ≤ (p.pstart : Int) then
    { st with
      default_period_node := some idx
      period_duration := (p.pduration : Int)
      period_start := (p.pstart : Int)
      media_presentation_duration :=
        if 0 < (p.pstart : Int) then (p.pduration : Int)
        else st.media_presentation_duration }
  else st

/-- The matching half of one Period iteration (lines 1429-1441): a
Period whose start is at or before curr_timepoint with gap at most the
running minimum becomes the matching node. -/
def periodStepMatch (curr_timepoint : Nat) (st : PeriodScanState)
    (idx : Nat) (p : periodNode) : PeriodScanState :=
  if 0 ≤ (curr_timepoint : Int) - (p.pstart : Int) ∧
      (curr_timepoint : Int) - (p.pstart : Int) ≤ st.min_period_diff then
    { st with
      min_period_diff := (curr_timepoint : Int) - (p.pstart : Int)
      period_duration := (p.pduration : Int)
      period_start := (p.pstart : Int)
      matching_period_node := some idx
      media_presentation_duration :=
        if 0 < (p.pstart : Int) then (p.pduration : Int)
        else st.media_presentation_duration }
  else st

/-- One iteration of the Period branch of the parse_manifest node loop,
for the Period with index idx and attributes p. -/
def periodStep (curr_timepoint : Nat) (st : PeriodScanState) (idx : Nat)
    (p : periodNode) : PeriodScanState :=
  periodStepMatch curr_timepoint (periodStepDefault st idx p) idx p

/-- The Period scan over the document-order Period list. -/
def periodScan (curr_timepoint : Nat) : List periodNode → Nat →
    PeriodScanState → PeriodScanState
  | [], _, st => st
  | p :: rest, idx, st =>
    periodScan curr_timepoint rest (idx + 1) (periodStep curr_timepoint st idx p)

/-- The Period-selection outcome of parse_manifest: scan all Periods
starting from the remembered period_start (and the other remembered
context fields), then take the matching node, else the default node,
else fail with AVERROR_INVALIDDATA (missing suitable Period node,
line 1448-1452).  min_period_diff starts at INT64_MAX. -/
def parse_manifest_select_period (curr_timepoint : Nat) (c : DASHContext)
    (periods : List periodNode) : Except Int (Nat × PeriodScanState) :=
  let st0 : PeriodScanState :=
    { matching_period_node := none
      default_period_node := none
      min_period_diff := 2 ^ 63 - 1
      period_start := c.period_start
      period_duration := c.period_duration
      media_presentation_duration := c.media_presentation_duration }
  let stF := periodScan curr_timepoint periods 0 st0
  match stF.matching_period_node with
  | some i => .ok (i, stF)
  | none =>
    match stF.default_period_node with
    | some i => .ok (i, stF)
    | none => .error AVERROR_INVALIDDATA

/-! ## refresh_manifest (dashdec.c lines 1731-1914) and its helpers
(lines 1575-1729)

The XML re-parse is abstracted: refresh_manifest takes the return code
parseRet of parse_manifest together with parsed, the DASHContext state
right after that call (its representation lists are the shadow lists the
parse built, its base_url and period fields are the newly parsed ones).
In-place mutation of a representation reached through a pointer into a
list becomes List.set at the representation's index.  The C string
comparisons (length check plus strncmp) are String equality.  av_cmp_q
on the frame rates is modelled as cross multiplication (exact for the
finite rationals that occur).  reopen/free calls are external I/O. -/

/-- move_video_params (lines 1647-1704): media-compatibility check that
also copies the changed parameter onto the destination (the live
representation) before reporting AVERROR_INPUT_CHANGED.  Returns
(ret, src, dest). -/
def move_video_params (src dest : representation) :
    Int × representation × representation :=
  if src.width ≠ dest.width ∨ src.height ≠ dest.height then
    (AVERROR_INPUT_CHANGED, src,
      { dest with width := src.width, height := src.height })
  else if src.framerate_num * dest.framerate_den ≠
      dest.framerate_num * src.framerate_den then
    (AVERROR_INPUT_CHANGED, src,
      { dest with framerate_num := src.framerate_num,
                  framerate_den := src.framerate_den })
  else if src.codecs.isSome ∧ dest.codecs.isSome ∧ src.codecs ≠ dest.codecs then
    (AVERROR_INPUT_CHANGED, { src with codecs := none },
      { dest with codecs := src.codecs })
  else if src.scantype.isSome ∧ dest.scantype.isSome ∧
      src.scantype ≠ dest.scantype then
    (AVERROR_INPUT_CHANGED, { src with scantype := none },
      { dest with scantype := src.scantype })
  else if src.codecs.isSome ≠ dest.codecs.isSome then
    (AVERROR_INPUT_CHANGED, src, dest)
  else if src.scantype.isSome ≠ dest.scantype.isSome then
    (AVERROR_INPUT_CHANGED, src, dest)
  else (0, src, dest)

/-- move_audio_params (lines 1706-1729): codec check only. -/
def move_audio_params (src dest : representation) :
    Int × representation × representation :=
  if src.codecs.isSome ∧ dest.codecs.isSome ∧ src.codecs ≠ dest.codecs then
    (AVERROR_INPUT_CHANGED, { src with codecs := none },
      { dest with codecs := src.codecs })
  else if src.codecs.isSome ≠ dest.codecs.isSome then
    (AVERROR_INPUT_CHANGED, src, dest)
  else (0, src, dest)

/-- move_timelines (lines 1575-1588). -/
def move_timelines (now : Int) (rep_src rep_dest : representation)
    (c : DASHContext) : representation × representation :=
  let dest := { rep_dest with
    timelines := rep_src.timelines
    first_seq_no := rep_src.first_seq_no }
  let dest := { dest with last_seq_no := calc_max_seg_no now dest c }
  let dest := { dest with
    cur_seq_no := rep_src.cur_seq_no
    cur_timestamp := rep_src.cur_timestamp }
  ({ rep_src with timelines := [] }, dest)

/-- move_segments (lines 1590-1606). -/
def move_segments (now : Int) (rep_src rep_dest : representation)
    (c : DASHContext) : representation × representation :=
  let dest :=
    if (rep_dest.start_number + rep_dest.fragments.length : Int) <
        rep_src.start_number then
      { rep_dest with cur_seq_no := 0 }
    else
      { rep_dest with cur_seq_no :=
          rep_dest.cur_seq_no + rep_src.start_number - rep_dest.start_number }
  let dest := { dest with fragments := rep_src.fragments }
  let dest := { dest with last_seq_no := calc_max_seg_no now dest c }
  let dest := { dest with cur_timestamp := rep_src.cur_timestamp }
  ({ rep_src with fragments := [] }, dest)

/-- move_init_section (lines 1608-1619): marks the destination init
section for reload and moves the section descriptor over (the buffer
pointers are external resources). -/
def move_init_section (rep_src rep_dest : representation) :
    representation × representation :=
  (rep_src, { rep_dest with init_loaded := false, init_sec_buf_read_offset := 0 })

/-- set_representation_period (lines 1621-1627). -/
def set_representation_period (c : DASHContext) (rep : representation) :
    representation :=
  { rep with
    period_start := c.period_start
    period_duration := c.period_duration
    period_media_presentation_duration := c.media_presentation_duration }

/-- The inner j-loop at lines 1781-1788/1841-1848: find the first shadow
representation whose non-null id equals the target's non-null id. -/
def findMatch (cur : representation) : List representation → Nat →
    Option (Nat × representation)
  | [], _ => none
  | r :: rest, j =>
    if r.id.isSome ∧ cur.id.isSome ∧ r.id = cur.id then some (j, r)
    else findMatch cur rest (j + 1)

/-- How one kind-loop of refresh_manifest exits: ok falls through, early
is the bare return AVERROR_INVALIDDATA at lines 1790-1794/1850-1854
(which bypasses the finish restore), fin is a goto finish with an error
code. -/
inductive RefreshExit where
  | ok
  | early (e : Int)
  | fin (e : Int)
deriving DecidableEq

/-- One kind-loop of refresh_manifest (lines 1773-1831 for video,
1833-1891 for audio).  Only the iteration whose element is the driven
representation does anything; tidx is its index in olds (none when the
driven representation is of the other kind).  Returns the exit together
with the updated snapshot list and updated shadow list. -/
def processTarget (now : Int) (c : DASHContext) (olds news : List representation)
    (tidx : Option Nat) (isVideo : Bool) :
    RefreshExit × List representation × List representation :=
  match tidx with
  | none => (.ok, olds, news)
  | some i =>
    match olds.get? i with
    | none => (.ok, olds, news)
    | some cur =>
      match findMatch cur news 0 with
      | none => (.early AVERROR_INVALIDDATA, olds, news)
      | some (j, ccur) =>
        let pr := if isVideo then move_video_params ccur cur
                  else move_audio_params ccur cur
        let ret := pr.1
        let ccur := pr.2.1
        let cur := pr.2.2
        if ret ≠ 0 then (.fin ret, olds.set i cur, news.set j ccur)
        else
          let tl :=
            if ¬ cur.timelines.isEmpty then
              if cur.period_start < c.period_start then
                let ccur := { ccur with cur_seq_no := ccur.first_seq_no }
                let mv := move_timelines now ccur cur c
                move_init_section mv.1 mv.2
              else
                let currentTime :=
                  Int.tdiv (get_segment_start_time_based_on_timeline c cur
                    cur.cur_seq_no) cur.fragment_timescale
                let newSeqNo := calc_next_seg_no_from_timelines c ccur
                  (currentTime * ccur.fragment_timescale - 1)
                if 0 ≤ newSeqNo then
                  move_timelines now { ccur with cur_seq_no := newSeqNo } cur c
                else (ccur, cur)
            else (ccur, cur)
          let ccur := tl.1
          let cur := tl.2
          let fr :=
            if ¬ cur.fragments.isEmpty then
              let mv := move_segments now ccur cur c
              if cur.period_start < c.period_start then
                let mi := move_init_section mv.1 mv.2
                (mi.1, { mi.2 with cur_seq_no := mi.1.start_number })
              else mv
            else (ccur, cur)
          let ccur := fr.1
          let cur := fr.2
          let cur := set_representation_period c cur
          (.ok, olds.set i cur, news.set j ccur)

/-- The finish block of refresh_manifest (lines 1893-1913): keep the
newly parsed base_url when one was set (freeing the saved one),
otherwise put the saved one back; free whatever representation lists the
context currently holds and reinstate the saved lists. -/
def refreshFinish (savedVideos savedAudios savedSubtitles : List representation)
    (savedBase : Option String) (cAfter : DASHContext) (ret : Int) :
    Int × DASHContext :=
  let base := match cAfter.base_url with
    | some b => some b
    | none => savedBase
  (ret, { cAfter with
    base_url := base
    videos := savedVideos
    audios := savedAudios
    subtitles := savedSubtitles })

/-- refresh_manifest: save the context lists and base_url, parse into the
cleared context (abstracted as parseRet and parsed), run the video and
audio target loops, and restore through the finish block - except on the
early missing-representation return, which leaves the shadow lists in
place.  targetIsVideo and tidx locate the driven representation. -/
def refresh_manifest (now : Int) (c : DASHContext) (targetIsVideo : Bool)
    (tidx : Nat) (parseRet : Int) (parsed : DASHContext) : Int × DASHContext :=
  let videos := c.videos
  let audios := c.audios
  let subtitles := c.subtitles
  let base_url := c.base_url
  if parseRet ≠ 0 then refreshFinish videos audios subtitles base_url parsed parseRet
  else
    let pv := processTarget now parsed videos parsed.videos
      (if targetIsVideo then some tidx else none) true
    match pv.1 with
    | .early e => (e, { parsed with videos := pv.2.2 })
    | .fin e =>
      refreshFinish pv.2.1 audios subtitles base_url
        { parsed with videos := pv.2.2 } e
    | .ok =>
      let parsed2 := { parsed with videos := pv.2.2 }
      let pa := processTarget now parsed2 audios parsed2.audios
        (if targetIsVideo then none else some tidx) false
      match pa.1 with
      | .early e => (e, { parsed2 with audios := pa.2.2 })
      | .fin e =>
        refreshFinish pv.2.1 pa.2.1 subtitles base_url
          { parsed2 with audios := pa.2.2 } e
      | .ok =>
        refreshFinish pv.2.1 pa.2.1 subtitles base_url
          { parsed2 with audios := pa.2.2 } 0

/-! ## read_data zero-byte tail (dashdec.c lines 2213-2221) -/

/-- The state change read_data performs when read_from_url returns no
bytes: for live, or when further segments exist, flag a restart and
advance the sequence number unless a restart is already pending; the
zero return value itself propagates to the caller unchanged (end of
stream otherwise). -/
def read_data_zero_byte (c : DASHContext) (v : representation) : representation :=
  if c.is_live ∨ v.cur_seq_no < v.last_seq_no then
    let v := if ¬ v.is_restart_needed then
        { v with cur_seq_no := v.cur_seq_no + 1 }
      else v
    { v with is_restart_needed := true }
  else v

/-! ## recheck_discard_flags (dashdec.c lines 2561-2584) and the gating
step of dash_read_packet (lines 2598-2600) -/

/-- The running FFMAX catch-up loop of recheck_discard_flags (lines
2573-2575): fold max over the cur_seq_no of every element of the same
kind array, starting from the enabled representation's own value. -/
def curMax (l : List representation) (b : Int) : Int :=
  l.foldl (fun m r => max m r.cur_seq_no) b

/-- One iteration of recheck_discard_flags for index i of the array p of
one kind.  needed mirrors line 2567; the enable branch resets the
per-segment offsets, runs the catch-up max over the (partially updated)
array, and reopens the inner parser; the disable branch closes the inner
parser and the fetcher input. -/
def recheckStep (l : List representation) (i : Nat) : List representation :=
  match l[i]? with
  | none => l
  | some pls =>
    let needed := ¬ pls.has_assoc_stream ∨ pls.discard < AVDISCARD_ALL
    if needed ∧ ¬ pls.ctx_open then
      l.set i { pls with
        cur_seg_offset := 0
        init_sec_buf_read_offset := 0
        cur_seq_no := curMax l pls.cur_seq_no
        ctx_open := true }
    else if ¬ needed ∧ pls.ctx_open then
      l.set i { pls with ctx_open := false, input_open := false }
    else l

/-- recheck_discard_flags over one kind array. -/
def recheck_discard_flags (l : List representation) : List representation :=
  (List.range l.length).foldl recheckStep l

/-- The gating step of dash_read_packet: recheck each kind separately. -/
def dash_read_packet_gate (c : DASHContext) : DASHContext :=
  { c with
    videos := recheck_discard_flags c.videos
    audios := recheck_discard_flags c.audios
    subtitles := recheck_discard_flags c.subtitles }

/-! ## dash_seek (dashdec.c lines 2685-2747) and dash_read_seek
(lines 2749-2775) -/

/-- The inner j-loop of the SegmentTimeline search in dash_seek:
duration += d, num++, early exit when seek_pos_msec falls before the
accumulated position in milliseconds. -/
def seekRepeat (msec ts d : Int) : Nat → Int → Int → Int ⊕ (Int × Int)
  | 0, num, dur => Sum.inr (num, dur)
  | j + 1, num, dur =>
    let dur := dur + d
    let num := num + 1
    if msec < Int.tdiv (dur * 1000) ts then Sum.inl num
    else seekRepeat msec ts d j num dur

/-- The SegmentTimeline search loop of dash_seek (lines 2713-2729);
falling off the end reaches set_seq_num with the accumulated num. -/
def seekTimelineLoop (msec ts : Int) : List timeline → Int → Int → Int
  | [], num, _ => num
  | e :: rest, num, dur =>
    let dur := if e.starttime > 0 then e.starttime else dur
    let dur := dur + e.duration
    if msec < Int.tdiv (dur * 1000) ts then num
    else
      match seekRepeat msec ts e.duration e.srepeat.toNat num dur with
      | Sum.inl r => r
      | Sum.inr (num, dur) => seekTimelineLoop msec ts rest (num + 1) dur

/-- dash_seek on one representation.  The single-fragment branch
delegates the real seek to the inner parser (external); the other
branches close the fetcher input and update the sequencer state.  The
dry_run flag only skips the external reopen, so it does not appear in
the state change. -/
def dash_seek (pls : representation) (seek_pos_msec : Int) : representation :=
  if pls.fragments.length = 1 then
    { pls with cur_timestamp := 0, cur_seg_offset := 0 }
  else
    let pls := { pls with input_open := false }
    let pls :=
      if 0 < pls.timelines.length ∧ 0 < pls.fragment_timescale then
        let num := seekTimelineLoop seek_pos_msec pls.fragment_timescale
          pls.timelines pls.first_seq_no 0
        { pls with cur_seq_no := if pls.last_seq_no < num then pls.last_seq_no
                                 else num }
      else if 0 < pls.fragment_duration then
        { pls with cur_seq_no := pls.first_seq_no +
            Int.tdiv (Int.tdiv (seek_pos_msec * pls.fragment_timescale)
              pls.fragment_duration) 1000 }
      else
        { pls with cur_seq_no := pls.first_seq_no }
    { pls with cur_timestamp := 0, cur_seg_offset := 0,
               init_sec_buf_read_offset := 0 }

/-- av_rescale_rnd with positive divisor c, restricted to the two
rounding modes dash_read_seek uses: toward zero (AV_ROUND_DOWN) and away
from zero (AV_ROUND_UP). -/
def av_rescale_rnd (a b c : Int) (up : Bool) : Int :=
  if up then
    if 0 ≤ a * b then Int.tdiv (a * b + c - 1) c
    else -(Int.tdiv (-(a * b) + c - 1) c)
  else Int.tdiv (a * b) c

/-- dash_read_seek: convert the timestamp to milliseconds in the
stream's own time base (AV_ROUND_DOWN for a backward seek, AV_ROUND_UP
otherwise), reject byte seeks and live with AVERROR(ENOSYS), and
otherwise run dash_seek over every representation of every kind (the
reopen for non-discarded representations is external and modelled as
succeeding). -/
def dash_read_seek (c : DASHContext) (time_base_den : Int) (timestamp : Int)
    (flags : Nat) : Except Int DASHContext :=
  let seek_pos_msec := av_rescale_rnd timestamp 1000 time_base_den
    (flags &&& AVSEEK_FLAG_BACKWARD = 0)
  if flags &&& AVSEEK_FLAG_BYTE ≠ 0 ∨ c.is_live then .error AVERROR_ENOSYS
  else .ok { c with
    videos := c.videos.map (fun r => dash_seek r seek_pos_msec)
    audios := c.audios.map (fun r => dash_seek r seek_pos_msec)
    subtitles := c.subtitles.map (fun r => dash_seek r seek_pos_msec) }

/-! ## Lemmas about the timeline walks -/

theorem entryStarts_length (p d : Int) (n : Nat) :
    (entryStarts p d n).length = n := by
  induction n generalizing p with
  | zero => rfl
  | succ n ih => simp [entryStarts, ih]

theorem entryStarts_getD (d : Int) : ∀ (n k : Nat) (p : Int), k < n →
    (entryStarts p d n).getD k 0 = p + k * d := by
  intro n
  induction n with
  | zero => intro k p h; omega
  | succ n ih =>
    intro k p hk
    cases k with
    | zero => simp [entryStarts]
    | succ k =>
      simp only [entryStarts, List.getD_cons_succ]
      rw [ih k (p + d) (by omega)]
      push_cast
      ring

theorem segmentStarts_length (l : List timeline) : ∀ pos : Int,
    (segmentStarts l pos).length = totalSegs l := by
  induction l with
  | nil => intro pos; rfl
  | cons e rest ih =>
    intro pos
    simp [segmentStarts, totalSegs, entryStarts_length, ih]

theorem startWalkRepeat_hit (d : Int) : ∀ (k reps : Nat) (num st : Int),
    k < reps →
    startWalkRepeat d (num + 1 + (k : Int)) reps num st =
      Sum.inl (st + (k : Int) * d) := by
  intro k
  induction k with
  | zero =>
    intro reps num st hk
    cases reps with
    | zero => omega
    | succ r => simp [startWalkRepeat]
  | succ k ih =>
    intro reps num st hk
    cases reps with
    | zero => omega
    | succ r =>
      simp only [startWalkRepeat]
      rw [if_neg (by push_cast; omega)]
      have hih := ih r (num + 1) (st + d) (by omega)
      rw [show (num + 1 + (((k : Nat) + 1 : Nat) : Int)) = num + 1 + 1 + (k : Int) from by
        push_cast; ring]
      rw [hih]
      congr 1
      push_cast
      ring

theorem startWalkRepeat_miss (d : Int) : ∀ (reps : Nat) (num st target : Int),
    (target < num + 1 ∨ num + (reps : Int) < target) →
    startWalkRepeat d target reps num st =
      Sum.inr (num + (reps : Int), st + (reps : Int) * d) := by
  intro reps
  induction reps with
  | zero => intro num st target h; simp [startWalkRepeat]
  | succ r ih =>
    intro num st target h
    simp only [startWalkRepeat]
    rw [if_neg (by push_cast at h ⊢; omega)]
    rw [ih (num + 1) (st + d) target (by push_cast at h ⊢; omega)]
    simp only [Sum.inr.injEq, Prod.mk.injEq]
    constructor
    · push_cast; ring
    · push_cast; ring

theorem startWalk_getD : ∀ (entries : List timeline) (num st : Int) (k : Nat),
    (∀ e ∈ entries, 0 ≤ e.srepeat) → k < totalSegs entries →
    startWalk (num + (k : Int)) entries num st =
      (segmentStarts entries st).getD k 0 := by
  intro entries
  induction entries with
  | nil =>
    intro num st k _ hk
    simp [totalSegs] at hk
  | cons e rest ih =>
    intro num st k hrep hk
    have hr0 : 0 ≤ e.srepeat := hrep e (by simp)
    have hne : ¬ e.srepeat = -1 := by omega
    simp only [startWalk, segmentStarts]
    have hlen : (entryStarts (if e.starttime > 0 then e.starttime else st)
        e.duration (e.srepeat.toNat + 1)).length = e.srepeat.toNat + 1 :=
      entryStarts_length _ _ _
    have htot : totalSegs (e :: rest) = (e.srepeat.toNat + 1) + totalSegs rest := by
      simp [totalSegs]
    by_cases hk0 : k = 0
    · subst hk0
      rw [if_pos (by push_cast; ring)]
      rw [List.getD_append _ _ _ _ (by rw [hlen]; omega)]
      rw [entryStarts_getD _ _ _ _ (by omega)]
      push_cast
      ring
    · rw [if_neg (by omega)]
      rw [if_neg hne]
      by_cases hkr : k ≤ e.srepeat.toNat
      · have hhit := startWalkRepeat_hit e.duration (k - 1) e.srepeat.toNat num
          ((if e.starttime > 0 then e.starttime else st) + e.duration)
          (by omega)
        rw [show num + 1 + ((k - 1 : Nat) : Int) = num + (k : Int) from by omega] at hhit
        simp only [hhit]
        rw [List.getD_append _ _ _ _ (by rw [hlen]; omega)]
        rw [entryStarts_getD _ _ _ _ (by omega)]
        have : ((k - 1 : Nat) : Int) = (k : Int) - 1 := by omega
        rw [this]
        ring
      · have hmiss := startWalkRepeat_miss e.duration e.srepeat.toNat num
          ((if e.starttime > 0 then e.starttime else st) + e.duration)
          (num + (k : Int)) (by right; omega)
        simp only [hmiss]
        have harg : num + (k : Int) =
            (num + (e.srepeat.toNat : Int) + 1) + ((k - (e.srepeat.toNat + 1) : Nat) : Int) := by
          omega
        have hst : (if e.starttime > 0 then e.starttime else st) + e.duration +
            (e.srepeat.toNat : Int) * e.duration =
            (if e.starttime > 0 then e.starttime else st) +
              ((e.srepeat.toNat : Int) + 1) * e.duration := by ring
        rw [harg, hst]
        rw [ih (num + (e.srepeat.toNat : Int) + 1) _ (k - (e.srepeat.toNat + 1))
          (fun x hx => hrep x (by simp [hx])) (by omega)]
        rw [List.getD_append_right _ _ _ _ (by rw [hlen]; omega)]
        rw [hlen]

theorem firstOver_append (t : Int) (a b : List Int) :
    firstOver t (a ++ b) =
      match firstOver t a with
      | some i => some i
      | none => (firstOver t b).map (fun i => i + a.length) := by
  induction a with
  | nil =>
    simp only [List.nil_append, List.length_nil]
    cases firstOver t b <;> simp [firstOver]
  | cons x xs ih =>
    by_cases hx : x > t
    · simp [firstOver, hx]
    · simp only [List.cons_append, firstOver, if_neg hx, List.append_eq]
      rw [ih]
      cases hfa : firstOver t xs with
      | some i => simp
      | none =>
        cases hfb : firstOver t b with
        | none => simp
        | some j =>
          simp only [Option.map_some', Option.map_none', List.length_cons,
            Option.some.injEq, Nat.succ_eq_add_one]
          omega

theorem nextWalkRepeat_firstOver (d t : Int) : ∀ (reps : Nat) (num st : Int),
    nextWalkRepeat d t reps num st =
      match firstOver t (entryStarts st d reps) with
      | some i => Sum.inl (num + 1 + (i : Int))
      | none => Sum.inr (num + (reps : Int), st + (reps : Int) * d) := by
  intro reps
  induction reps with
  | zero =>
    intro num st
    simp [nextWalkRepeat, entryStarts, firstOver]
  | succ r ih =>
    intro num st
    simp only [nextWalkRepeat, entryStarts, firstOver]
    by_cases hx : st > t
    · simp [hx]
    · rw [if_neg hx, if_neg hx, ih (num + 1) (st + d)]
      cases hf : firstOver t (entryStarts (st + d) d r) with
      | some i =>
        simp only [Option.map_some', Sum.inl.injEq]
        push_cast
        ring
      | none =>
        simp only [Option.map_none', Sum.inr.injEq, Prod.mk.injEq]
        constructor
        · push_cast; ring
        · push_cast; ring

theorem nextWalk_firstOver : ∀ (entries : List timeline) (t num st : Int),
    nextWalk t entries num st =
      match firstOver t (segmentStarts entries st) with
      | some i => num + (i : Int)
      | none => -1 := by
  intro entries
  induction entries with
  | nil => intro t num st; simp [nextWalk, segmentStarts, firstOver]
  | cons e rest ih =>
    intro t num st
    simp only [nextWalk, segmentStarts]
    have hcons : entryStarts (if e.starttime > 0 then e.starttime else st)
        e.duration (e.srepeat.toNat + 1) =
        (if e.starttime > 0 then e.starttime else st) ::
          entryStarts ((if e.starttime > 0 then e.starttime else st) + e.duration)
            e.duration e.srepeat.toNat := by
      simp [entryStarts]
    rw [hcons]
    by_cases hp : (if e.starttime > 0 then e.starttime else st) > t
    · simp only [List.cons_append, firstOver, if_pos hp]
      simp
    · simp only [List.cons_append, firstOver, if_neg hp, List.append_eq]
      rw [nextWalkRepeat_firstOver]
      rw [firstOver_append]
      cases hf : firstOver t (entryStarts
          ((if e.starttime > 0 then e.starttime else st) + e.duration)
          e.duration e.srepeat.toNat) with
      | some i =>
        simp only [Option.map_some']
        push_cast
        ring
      | none =>
        simp only [Option.map_none']
        rw [ih]
        have hst : (if e.starttime > 0 then e.starttime else st) + e.duration +
            (e.srepeat.toNat : Int) * e.duration =
            (if e.starttime > 0 then e.starttime else st) +
              ((e.srepeat.toNat : Int) + 1) * e.duration := by ring
        rw [hst]
        cases hg : firstOver t (segmentStarts rest
            ((if e.starttime > 0 then e.starttime else st) +
              ((e.srepeat.toNat : Int) + 1) * e.duration)) with
        | some j =>
          simp only [Option.map_some']
          rw [entryStarts_length]
          push_cast
          ring
        | none => simp

/-! ## Well-formed timelines give strictly increasing segment starts -/

theorem wfFrom_srepeat_nonneg : ∀ (l : List timeline) (pos : Int),
    wfFrom l pos → ∀ e ∈ l, 0 ≤ e.srepeat := by
  intro l
  induction l with
  | nil => intro pos _ e he; simp at he
  | cons x rest ih =>
    intro pos hwf e he
    obtain ⟨-, hx, -, hrest⟩ := hwf
    rcases List.mem_cons.mp he with he | he
    · exact he ▸ hx
    · exact ih _ hrest e he

theorem entryStarts_mem {x : Int} : ∀ (n : Nat) (p d : Int),
    x ∈ entryStarts p d n → ∃ j : Nat, j < n ∧ x = p + (j : Int) * d := by
  intro n
  induction n with
  | zero => intro p d h; simp [entryStarts] at h
  | succ n ih =>
    intro p d h
    simp only [entryStarts] at h
    rcases List.mem_cons.mp h with h | h
    · exact ⟨0, by omega, by simp [h]⟩
    · obtain ⟨j, hj, hx⟩ := ih (p + d) d h
      exact ⟨j + 1, by omega, by rw [hx]; push_cast; ring⟩

theorem entryStarts_pairwise {d : Int} (hd : 1 ≤ d) : ∀ (n : Nat) (p : Int),
    (entryStarts p d n).Pairwise (· < ·) := by
  intro n
  induction n with
  | zero => intro p; simp [entryStarts]
  | succ n ih =>
    intro p
    rw [entryStarts, List.pairwise_cons]
    refine ⟨fun x hx => ?_, ih (p + d)⟩
    obtain ⟨j, -, hxe⟩ := entryStarts_mem n (p + d) d hx
    have : 0 ≤ (j : Int) * d := mul_nonneg (by positivity) (by omega)
    omega

theorem segmentStarts_ge : ∀ (l : List timeline) (pos : Int),
    wfFrom l pos → ∀ x ∈ segmentStarts l pos, pos ≤ x := by
  intro l
  induction l with
  | nil => intro pos _ x hx; simp [segmentStarts] at hx
  | cons e rest ih =>
    intro pos hwf x hx
    obtain ⟨hd, hr, hs, hrest⟩ := hwf
    simp only [segmentStarts, List.mem_append] at hx
    have hppos : pos ≤ (if e.starttime > 0 then e.starttime else pos) := by
      by_cases h0 : e.starttime > 0
      · simp only [if_pos h0]; rcases hs with hs | hs <;> omega
      · simp [h0]
    rcases hx with hx | hx
    · obtain ⟨j, -, hxe⟩ := entryStarts_mem _ _ _ hx
      have : 0 ≤ (j : Int) * e.duration := mul_nonneg (by positivity) (by omega)
      omega
    · have := ih _ hrest x hx
      have h2 : 0 ≤ ((e.srepeat.toNat : Int) + 1) * e.duration :=
        mul_nonneg (by positivity) (by omega)
      omega

theorem segmentStarts_pairwise : ∀ (l : List timeline) (pos : Int),
    wfFrom l pos → (segmentStarts l pos).Pairwise (· < ·) := by
  intro l
  induction l with
  | nil => intro pos _; simp [segmentStarts]
  | cons e rest ih =>
    intro pos hwf
    obtain ⟨hd, hr, hs, hrest⟩ := hwf
    rw [segmentStarts, List.pairwise_append]
    refine ⟨entryStarts_pairwise hd _ _, ih _ hrest, fun x hx y hy => ?_⟩
    obtain ⟨j, hj, hxe⟩ := entryStarts_mem _ _ _ hx
    have hyge := segmentStarts_ge rest _ hrest y hy
    have hjd : (j : Int) * e.duration ≤ (e.srepeat.toNat : Int) * e.duration := by
      have : (j : Int) ≤ (e.srepeat.toNat : Int) := by omega
      exact mul_le_mul_of_nonneg_right this (by omega)
    have hlt : ((e.srepeat.toNat : Int)) * e.duration <
        ((e.srepeat.toNat : Int) + 1) * e.duration := by nlinarith
    omega

theorem firstOver_of_pairwise : ∀ (l : List Int) (k : Nat),
    l.Pairwise (· < ·) → k < l.length →
    firstOver (l.getD k 0 - 1) l = some k := by
  intro l
  induction l with
  | nil => intro k _ hk; simp at hk
  | cons x xs ih =>
    intro k hp hk
    rw [List.pairwise_cons] at hp
    cases k with
    | zero =>
      simp only [List.getD_cons_zero, firstOver]
      rw [if_pos (by omega)]
    | succ k =>
      simp only [List.getD_cons_succ, firstOver, List.length_cons] at hk ⊢
      have hmem : xs.getD k 0 ∈ xs := by
        rw [List.getD_eq_getElem xs 0 (by omega)]
        exact List.getElem_mem _
      have hxlt : x < xs.getD k 0 := hp.1 _ hmem
      rw [if_neg (by omega)]
      rw [ih k hp.2 (by omega)]
      rfl

/-! ## The spec reference walk computes the same start times as the code
walk (claim C1) -/

theorem spec_walk_reps_startWalkRepeat (d target : Int) : ∀ (k : Nat) (num st : Int),
    (∀ r, startWalkRepeat d target k num st = Sum.inl r →
      (spec_walk_reps d target k num st).1 = some r) ∧
    (∀ n s, startWalkRepeat d target k num st = Sum.inr (n, s) →
      spec_walk_reps d target k num st = (none, n, s)) := by
  intro k
  induction k with
  | zero =>
    intro num st
    constructor
    · intro r h; simp [startWalkRepeat] at h
    · intro n s h
      simp only [startWalkRepeat, Sum.inr.injEq, Prod.mk.injEq] at h
      simp [spec_walk_reps, h.1, h.2]
  | succ k ih =>
    intro num st
    by_cases hm : num + 1 = target
    · constructor
      · intro r h
        simp only [startWalkRepeat, if_pos hm] at h
        injection h with h
        simp [spec_walk_reps, hm, h]
      · intro n s h
        simp only [startWalkRepeat, if_pos hm] at h
        simp at h
    · constructor
      · intro r h
        simp only [startWalkRepeat, if_neg hm] at h
        simp only [spec_walk_reps, if_pos rfl, if_neg hm]
        exact (ih (num + 1) (st + d)).1 r h
      · intro n s h
        simp only [startWalkRepeat, if_neg hm] at h
        simp only [spec_walk_reps, if_neg hm]
        exact (ih (num + 1) (st + d)).2 n s h

theorem spec_reference_walk_eq_startWalk (target : Int) :
    ∀ (l : List timeline) (num st : Int),
    spec_reference_walk target l num st = startWalk target l num st := by
  intro l
  induction l with
  | nil => intro num st; rfl
  | cons e rest ih =>
    intro num st
    simp only [spec_reference_walk, startWalk]
    by_cases hmatch : num = target
    · simp [hmatch]
    · rw [if_neg hmatch, if_neg hmatch]
      by_cases hrep : e.srepeat = -1
      · simp [hrep]
      · rw [if_neg hrep, if_neg hrep]
        rcases hw : startWalkRepeat e.duration target e.srepeat.toNat num
            ((if e.starttime > 0 then e.starttime else st) + e.duration) with r | ns
        · have h1 := (spec_walk_reps_startWalkRepeat e.duration target
            e.srepeat.toNat num
            ((if e.starttime > 0 then e.starttime else st) + e.duration)).1 r hw
          rcases hsp : spec_walk_reps e.duration target e.srepeat.toNat num
              ((if e.starttime > 0 then e.starttime else st) + e.duration) with ⟨o, n2, s2⟩
          rw [hsp] at h1
          simp only at h1
          rw [h1]
        · obtain ⟨n, s⟩ := ns
          have h2 := (spec_walk_reps_startWalkRepeat e.duration target
            e.srepeat.toNat num
            ((if e.starttime > 0 then e.starttime else st) + e.duration)).2 n s hw
          rw [h2]
          exact ih (n + 1) s

/-- The two-entry discontinuity timeline of the spec's scenario 3:
S(t=0, d=2, r=1) then S(t=10, d=2, r=0), startNumber 0, so the valid
sequence numbers are 0..2. -/
def timelineDiscontinuityRep : representation :=
  { timelines := [{ starttime := 0, srepeat := 1, duration := 2 },
                  { starttime := 10, srepeat := 0, duration := 2 }]
    first_seq_no := 0
    last_seq_no := 2 }

theorem nextWalk_of_firstOver_some {t st : Int} {l : List timeline} {i : Nat}
    (num : Int) (h : firstOver t (segmentStarts l st) = some i) :
    nextWalk t l num st = num + (i : Int) := by
  rw [nextWalk_firstOver, h]

theorem nextWalk_of_firstOver_none {t st : Int} {l : List timeline}
    (num : Int) (h : firstOver t (segmentStarts l st) = none) :
    nextWalk t l num st = -1 := by
  rw [nextWalk_firstOver, h]

theorem firstOver_eq_none {t : Int} : ∀ (l : List Int),
    (∀ s ∈ l, s ≤ t) → firstOver t l = none := by
  intro l
  induction l with
  | nil => intro _; rfl
  | cons x xs ih =>
    intro h
    have hx : x ≤ t := h x (by simp)
    simp only [firstOver, if_neg (by omega : ¬ x > t)]
    rw [ih (fun s hs => h s (by simp [hs]))]
    rfl

/-- C1: get_segment_start_time_based_on_timeline computes exactly the
spec's reference walk (on the option-normalized target), and on the
two-entry discontinuity timeline S(t=0,d=2,r=1), S(t=10,d=2,r=0) the
targets 0, 1, 2 yield start times 0, 2, 10. -/
theorem C1_get_segment_start_time_matches_spec_reference_walk :
    (∀ (c : DASHContext) (pls : representation) (target : Int),
      get_segment_start_time_based_on_timeline c pls target =
        if pls.timelines.isEmpty then 0
        else
          spec_reference_walk
            (if c.use_timeline_segment_offset_correction ∧
                pls.first_seq_no ≤ target
             then target - pls.first_seq_no else target) pls.timelines 0 0) ∧
    get_segment_start_time_based_on_timeline {} timelineDiscontinuityRep 0 = 0 ∧
    get_segment_start_time_based_on_timeline {} timelineDiscontinuityRep 1 = 2 ∧
    get_segment_start_time_based_on_timeline {} timelineDiscontinuityRep 2 = 10 := by
  refine ⟨fun c pls target => ?_, by decide, by decide, by decide⟩
  by_cases h : pls.timelines.isEmpty <;>
    simp [get_segment_start_time_based_on_timeline, h,
      spec_reference_walk_eq_startWalk]

/-- C2 counterexample: the round trip as claimed, without subtracting 1
from the start time, already fails on the spec's own discontinuity
timeline at the valid sequence number N = 0 (first_seq_no = 0,
last_seq_no = 2): calc_next_seg_no_from_timelines returns the first
segment starting strictly after the given time, which is 1, not 0. -/
theorem C2_round_trip_as_claimed_fails :
    timelineDiscontinuityRep.first_seq_no ≤ 0 ∧
    (0 : Int) ≤ timelineDiscontinuityRep.last_seq_no ∧
    calc_next_seg_no_from_timelines {} timelineDiscontinuityRep
      (get_segment_start_time_based_on_timeline {}
        timelineDiscontinuityRep 0) = 1 ∧
    (1 : Int) ≠ 0 := by
  refine ⟨by decide, by decide, by decide, by decide⟩

/-- C2 amended: for every well-formed timeline (positive durations,
explicit repeat counts, non-decreasing explicit start times) and every
valid sequence number N (first_seq_no ≤ N < first_seq_no + number of
segments), calc_next_seg_no_from_timelines applied to the segment start
time of N minus one tick returns N - exactly the round trip
refresh_manifest performs at dashdec.c line 1813.  This holds with
use_timeline_segment_offset_correction on (the default), and also off
when first_seq_no is 0. -/
theorem C2_round_trip_with_minus_one (c : DASHContext) (pls : representation)
    (N : Int)
    (hwf : wfFrom pls.timelines 0)
    (hne : pls.timelines ≠ [])
    (hopt : c.use_timeline_segment_offset_correction = true ∨
      pls.first_seq_no = 0)
    (hlo : pls.first_seq_no ≤ N)
    (hhi : N < pls.first_seq_no + (totalSegs pls.timelines : Int)) :
    calc_next_seg_no_from_timelines c pls
      (get_segment_start_time_based_on_timeline c pls N - 1) = N := by
  have hkpos : 0 ≤ N - pls.first_seq_no := by omega
  have hkc : ((N - pls.first_seq_no).toNat : Int) = N - pls.first_seq_no :=
    Int.toNat_of_nonneg hkpos
  set k : Nat := (N - pls.first_seq_no).toNat with hkdef
  have hklen : k < totalSegs pls.timelines := by omega
  have hsrep : ∀ e ∈ pls.timelines, 0 ≤ e.srepeat :=
    wfFrom_srepeat_nonneg _ _ hwf
  have hnotEmpty : ¬ pls.timelines.isEmpty = true := by
    simpa [List.isEmpty_iff] using hne
  have hnorm : (if c.use_timeline_segment_offset_correction ∧
      pls.first_seq_no ≤ N then N - pls.first_seq_no else N) = (k : Int) := by
    rcases hopt with h | h
    · rw [if_pos ⟨by simp [h], hlo⟩]; omega
    · split <;> omega
  have hget : get_segment_start_time_based_on_timeline c pls N =
      (segmentStarts pls.timelines 0).getD k 0 := by
    simp only [get_segment_start_time_based_on_timeline, if_neg hnotEmpty]
    rw [hnorm]
    have hw := startWalk_getD pls.timelines 0 0 k hsrep hklen
    simpa using hw
  have hpw := segmentStarts_pairwise pls.timelines 0 hwf
  have hlen2 : k < (segmentStarts pls.timelines 0).length := by
    rw [segmentStarts_length]; exact hklen
  have hfo := firstOver_of_pairwise (segmentStarts pls.timelines 0) k hpw hlen2
  simp only [calc_next_seg_no_from_timelines]
  rw [hget, nextWalk_of_firstOver_some 0 hfo]
  rcases hopt with h | h
  · rw [if_neg (by omega), if_pos (by simp [h])]
    omega
  · rw [if_neg (by omega)]
    by_cases h2 : c.use_timeline_segment_offset_correction <;>
      simp [h2] <;> omega

/-- Witness for C2_round_trip_with_minus_one at the discontinuity
timeline and N = 1 with the default options. -/
theorem C2_round_trip_with_minus_one_witness :
    wfFrom timelineDiscontinuityRep.timelines 0 ∧
    timelineDiscontinuityRep.timelines ≠ [] ∧
    ((({} : DASHContext)).use_timeline_segment_offset_correction = true ∨
      timelineDiscontinuityRep.first_seq_no = 0) ∧
    timelineDiscontinuityRep.first_seq_no ≤ 1 ∧
    (1 : Int) < timelineDiscontinuityRep.first_seq_no +
      (totalSegs timelineDiscontinuityRep.timelines : Int) ∧
    calc_next_seg_no_from_timelines {} timelineDiscontinuityRep
      (get_segment_start_time_based_on_timeline {}
        timelineDiscontinuityRep 1 - 1) = 1 := by
  have hwf : wfFrom timelineDiscontinuityRep.timelines 0 := by
    norm_num [wfFrom, timelineDiscontinuityRep]
  have hne : timelineDiscontinuityRep.timelines ≠ [] := by decide
  have hhi : (1 : Int) < timelineDiscontinuityRep.first_seq_no +
      (totalSegs timelineDiscontinuityRep.timelines : Int) := by
    norm_num [timelineDiscontinuityRep, totalSegs]
  exact ⟨hwf, hne, Or.inl rfl, by norm_num [timelineDiscontinuityRep], hhi,
    C2_round_trip_with_minus_one {} timelineDiscontinuityRep 1 hwf hne
      (Or.inl rfl) (by norm_num [timelineDiscontinuityRep]) hhi⟩

/-- C9: when no position of the timeline walk has a running start time
strictly greater than the query time (the query lies at or beyond the
end of the last entry), calc_next_seg_no_from_timelines returns the
sentinel -1, and calc_cur_seg_no's timeline branch then falls back to
first_seq_no. -/
theorem C9_calc_next_sentinel_and_fallback (c : DASHContext)
    (pls : representation) (now : Int) :
    (∀ t : Int, (∀ s ∈ segmentStarts pls.timelines 0, s ≤ t) →
      calc_next_seg_no_from_timelines c pls t = -1) ∧
    (c.is_live = true → pls.fragments = [] → pls.timelines ≠ [] →
      (∀ s ∈ segmentStarts pls.timelines 0,
        s ≤ get_segment_start_time_based_on_timeline c pls 0xFFFFFFFF -
          60 * pls.fragment_timescale) →
      calc_cur_seg_no now c pls = pls.first_seq_no) := by
  have hpart1 : ∀ t : Int, (∀ s ∈ segmentStarts pls.timelines 0, s ≤ t) →
      calc_next_seg_no_from_timelines c pls t = -1 := by
    intro t ht
    simp only [calc_next_seg_no_from_timelines]
    rw [nextWalk_of_firstOver_none 0 (firstOver_eq_none _ ht)]
    simp
  refine ⟨hpart1, fun hlive hfrag htl hoff => ?_⟩
  have hlen : ¬ 0 < pls.fragments.length := by simp [hfrag]
  have htlen : 0 < pls.timelines.length := by
    cases h : pls.timelines with
    | nil => exact absurd h htl
    | cons a l => simp
  simp only [calc_cur_seg_no, if_pos hlive, if_neg hlen, if_pos htlen]
  rw [hpart1 _ hoff]
  simp

/-- A live context and a one-entry timeline representation used as the
C9 witness: the single segment starts at 0 and the 60-second-back query
offset evaluates to 2 (fragment_timescale 0), past the only start. -/
def sentinelRep : representation :=
  { timelines := [{ starttime := 0, srepeat := 0, duration := 2 }] }

/-- A live DASHContext with the default options. -/
def liveCtx : DASHContext := { is_live := true }

/-- Witness for C9 at the concrete one-entry timeline. -/
theorem C9_calc_next_sentinel_and_fallback_witness :
    (∀ s ∈ segmentStarts sentinelRep.timelines 0, s ≤ (2 : Int)) ∧
    calc_next_seg_no_from_timelines liveCtx sentinelRep 2 = -1 ∧
    calc_cur_seg_no 0 liveCtx sentinelRep = sentinelRep.first_seq_no := by
  refine ⟨by decide, ?_, ?_⟩
  · exact (C9_calc_next_sentinel_and_fallback liveCtx sentinelRep 0).1 2 (by decide)
  · exact (C9_calc_next_sentinel_and_fallback liveCtx sentinelRep 0).2 rfl rfl
      (by decide) (by decide)

/-! ## Claim C5: the fetch_completed_segments_only subtraction -/

/-- Modelled from the spec, section 4.3: the four-case template+duration
arithmetic producing the raw live sequence number, before the
fetch-completed-segments-only adjustment. -/
def raw_template_seg_no (now : Int) (c : DASHContext)
    (pls : representation) : Int :=
  if pls.presentation_timeoffset ≠ 0 then
    pls.first_seq_no +
      Int.tdiv ((now - c.availability_start_time) * pls.fragment_timescale -
        pls.presentation_timeoffset) pls.fragment_duration - c.min_buffer_time
  else if 0 < c.publish_time ∧ c.availability_start_time = 0 then
    if c.min_buffer_time ≠ 0 then
      pls.first_seq_no +
        Int.tdiv ((c.publish_time + pls.fragment_duration -
          c.suggested_presentation_delay) * pls.fragment_timescale)
          pls.fragment_duration - c.min_buffer_time
    else
      pls.first_seq_no +
        Int.tdiv ((c.publish_time - c.time_shift_buffer_depth +
          pls.fragment_duration - c.suggested_presentation_delay) *
          pls.fragment_timescale) pls.fragment_duration
  else
    pls.first_seq_no +
      Int.tdiv ((now - c.availability_start_time -
        c.suggested_presentation_delay) * pls.fragment_timescale)
        pls.fragment_duration

/-- C5 counterexample: live template+duration with fetch completed on,
time_shift_buffer_depth = 5 (nonzero), suggested_presentation_delay = 0,
wall clock 10, timescale = duration = 1, first_seq_no = 0.  The claim
requires both depths to be zero for the subtraction, so it predicts 10;
the code's wall-clock branch only checks suggested_presentation_delay
and returns 9. -/
def c5Ctx : DASHContext := { is_live := true, time_shift_buffer_depth := 5 }

/-- The template+duration representation for the C5 counterexample. -/
def c5Rep : representation :=
  { fragment_duration := 1, fragment_timescale := 1, first_seq_no := 0 }

theorem C5_subtract_iff_as_claimed_fails :
    calc_cur_seg_no 10 c5Ctx c5Rep = 9 ∧
    calc_cur_seg_no 10 c5Ctx c5Rep ≠ 10 := by
  refine ⟨by decide, by decide⟩

/-- C5 amended: with fetch_completed_segments_only on, for a live
template+duration representation, calc_cur_seg_no subtracts 1 from the
raw four-case value exactly as follows: never in the
presentation_timeoffset branch; in the publish_time-driven branch when
the raw value exceeds first_seq_no and both time_shift_buffer_depth and
suggested_presentation_delay are 0; and in the wall-clock branch when
the raw value exceeds first_seq_no and suggested_presentation_delay
alone is 0 (time_shift_buffer_depth is not consulted there). -/
theorem C5_subtraction_characterized (now : Int) (c : DASHContext)
    (pls : representation)
    (hlive : c.is_live = true) (hfr : pls.fragments = [])
    (htl : pls.timelines = []) (hdur : pls.fragment_duration ≠ 0)
    (hopt : c.fetch_completed_segments_only = true) :
    (pls.presentation_timeoffset ≠ 0 →
      calc_cur_seg_no now c pls = raw_template_seg_no now c pls) ∧
    (pls.presentation_timeoffset = 0 →
      0 < c.publish_time → c.availability_start_time = 0 →
      calc_cur_seg_no now c pls =
        (if pls.first_seq_no < raw_template_seg_no now c pls ∧
            c.time_shift_buffer_depth = 0 ∧
            c.suggested_presentation_delay = 0
         then raw_template_seg_no now c pls - 1
         else raw_template_seg_no now c pls)) ∧
    (pls.presentation_timeoffset = 0 →
      ¬ (0 < c.publish_time ∧ c.availability_start_time = 0) →
      calc_cur_seg_no now c pls =
        (if pls.first_seq_no < raw_template_seg_no now c pls ∧
            c.suggested_presentation_delay = 0
         then raw_template_seg_no now c pls - 1
         else raw_template_seg_no now c pls)) := by
  have hfl : ¬ 0 < pls.fragments.length := by simp [hfr]
  have htll : ¬ 0 < pls.timelines.length := by simp [htl]
  refine ⟨fun hpto => ?_, fun hpto hpub hav => ?_, fun hpto hnp => ?_⟩
  · simp only [calc_cur_seg_no, raw_template_seg_no, if_pos hlive,
      if_neg hfl, if_neg htll, if_pos hdur, if_pos hpto]
  · simp only [calc_cur_seg_no, raw_template_seg_no, if_pos hlive,
      if_neg hfl, if_neg htll, if_pos hdur,
      if_neg (by omega : ¬ pls.presentation_timeoffset ≠ 0),
      if_pos (⟨hpub, hav⟩ : 0 < c.publish_time ∧ c.availability_start_time = 0),
      hopt]
    split_ifs <;> first | rfl | omega | tauto
  · simp only [calc_cur_seg_no, raw_template_seg_no, if_pos hlive,
      if_neg hfl, if_neg htll, if_pos hdur,
      if_neg (by omega : ¬ pls.presentation_timeoffset ≠ 0),
      if_neg hnp, hopt]
    split_ifs <;> first | rfl | omega | tauto

/-- Witness for C5_subtraction_characterized: same context as the
counterexample; the wall-clock conjunct applies and yields 9 = raw - 1
with raw = 10. -/
theorem C5_subtraction_characterized_witness :
    c5Ctx.is_live = true ∧ c5Rep.fragments = [] ∧ c5Rep.timelines = [] ∧
    c5Rep.fragment_duration ≠ 0 ∧
    c5Ctx.fetch_completed_segments_only = true ∧
    raw_template_seg_no 10 c5Ctx c5Rep = 10 ∧
    calc_cur_seg_no 10 c5Ctx c5Rep = 9 := by
  have h := (C5_subtraction_characterized 10 c5Ctx c5Rep rfl rfl rfl
    (by decide) rfl).2.2 (by decide) (by decide)
  refine ⟨rfl, rfl, rfl, by decide, rfl, by decide, ?_⟩
  rw [h]
  decide

/-! ## Claim C6: the zero-byte read transition -/

/-- C6 counterexample: a live representation with a restart already
pending (is_restart_needed set) receives another zero-byte read; the
code leaves cur_seq_no unchanged (the increment at line 2219 is guarded
by the flag), while the claim says it increments by exactly one. -/
def c6Rep : representation := { cur_seq_no := 3, is_restart_needed := true }

theorem C6_increment_as_claimed_fails :
    (read_data_zero_byte liveCtx c6Rep).cur_seq_no = 3 ∧
    (read_data_zero_byte liveCtx c6Rep).cur_seq_no ≠ 4 ∧
    (read_data_zero_byte liveCtx c6Rep).is_restart_needed = true := by
  refine ⟨by decide, by decide, by decide⟩

/-- C6 amended: on a zero-byte body read, if the presentation is live or
cur_seq_no < last_seq_no, read_data sets is_restart_needed and
increments cur_seq_no by exactly one unless a restart was already
pending (so cur_seq_no grows exactly once per exhausted segment even
across repeated zero-byte reads); otherwise the state is untouched and
the zero-byte result propagates as end of stream. -/
theorem C6_zero_byte_transition (c : DASHContext) (v : representation) :
    ((c.is_live = true ∨ v.cur_seq_no < v.last_seq_no) →
      (read_data_zero_byte c v).is_restart_needed = true ∧
      (v.is_restart_needed = false →
        (read_data_zero_byte c v).cur_seq_no = v.cur_seq_no + 1) ∧
      (v.is_restart_needed = true →
        (read_data_zero_byte c v).cur_seq_no = v.cur_seq_no)) ∧
    (¬ (c.is_live = true ∨ v.cur_seq_no < v.last_seq_no) →
      read_data_zero_byte c v = v) := by
  constructor
  · intro h
    refine ⟨?_, fun hflag => ?_, fun hflag => ?_⟩
    · simp [read_data_zero_byte, if_pos h]
    · simp [read_data_zero_byte, if_pos h, hflag]
    · simp [read_data_zero_byte, if_pos h, hflag]
  · intro h
    simp [read_data_zero_byte, if_neg h]

/-- Witness for C6_zero_byte_transition: fresh live state, one zero-byte
read advances 3 to 4 and raises the flag. -/
theorem C6_zero_byte_transition_witness :
    liveCtx.is_live = true ∧
    (read_data_zero_byte liveCtx { cur_seq_no := 3 }).cur_seq_no = 4 ∧
    (read_data_zero_byte liveCtx { cur_seq_no := 3 }).is_restart_needed = true := by
  have h := (C6_zero_byte_transition liveCtx { cur_seq_no := 3 }).1 (Or.inl rfl)
  exact ⟨rfl, h.2.1 rfl, h.1⟩

/-! ## Claim C7: the catch-up maximum of recheck_discard_flags -/

theorem curMax_cons (r : representation) (rest : List representation) (b : Int) :
    curMax (r :: rest) b = curMax rest (max b r.cur_seq_no) := rfl

theorem le_curMax : ∀ (l : List representation) (b : Int), b ≤ curMax l b := by
  intro l
  induction l with
  | nil => intro b; simp [curMax]
  | cons r rest ih =>
    intro b
    rw [curMax_cons]
    exact le_trans (le_max_left _ _) (ih _)

theorem curMax_mem_le : ∀ (l : List representation) (b : Int)
    (x : representation), x ∈ l → x.cur_seq_no ≤ curMax l b := by
  intro l
  induction l with
  | nil => intro b x hx; simp at hx
  | cons r rest ih =>
    intro b x hx
    rw [curMax_cons]
    rcases List.mem_cons.mp hx with hx | hx
    · exact le_trans (hx ▸ le_max_right b r.cur_seq_no) (le_curMax _ _)
    · exact ih _ x hx

theorem curMax_le : ∀ (l : List representation) (b B : Int), b ≤ B →
    (∀ x ∈ l, x.cur_seq_no ≤ B) → curMax l b ≤ B := by
  intro l
  induction l with
  | nil => intro b B hb _; simpa [curMax] using hb
  | cons r rest ih =>
    intro b B hb h
    rw [curMax_cons]
    exact ih _ _ (max_le hb (h r (by simp)))
      (fun x hx => h x (by simp [hx]))

/-- Replacing one element by a value bounded between its own cur_seq_no
and the catch-up maximum does not change the catch-up maximum. -/
theorem curMax_set_bounded {l : List representation} {i : Nat}
    (hi : i < l.length) {r' : representation} (b : Int)
    (h1 : l[i].cur_seq_no ≤ r'.cur_seq_no)
    (h2 : r'.cur_seq_no ≤ curMax l l[i].cur_seq_no) :
    curMax (l.set i r') b = curMax l b := by
  have hmemr' : r' ∈ l.set i r' := by
    rw [List.mem_iff_getElem]
    exact ⟨i, by simpa using hi, by simp [List.getElem_set_self]⟩
  have hich : curMax l l[i].cur_seq_no ≤ curMax l b := by
    refine curMax_le _ _ _ ?_ (fun x hx => curMax_mem_le _ _ x hx)
    exact curMax_mem_le _ _ _ (List.getElem_mem hi)
  apply le_antisymm
  · refine curMax_le _ _ _ (le_curMax _ _) (fun x hx => ?_)
    rcases List.mem_or_eq_of_mem_set hx with hx | hx
    · exact curMax_mem_le _ _ x hx
    · exact hx ▸ le_trans h2 hich
  · refine curMax_le _ _ _ (le_curMax _ _) (fun x hx => ?_)
    obtain ⟨j, hj, rfl⟩ := List.mem_iff_getElem.mp hx
    by_cases hij : j = i
    · subst hij
      exact le_trans h1 (le_trans (curMax_mem_le _ b r' hmemr') le_rfl)
    · have : l[j] ∈ l.set i r' := by
        rw [List.mem_iff_getElem]
        exact ⟨j, by simpa using hj, by rw [List.getElem_set_ne (by omega)]⟩
      exact curMax_mem_le _ _ _ this

theorem recheckStep_length (l : List representation) (j : Nat) :
    (recheckStep l j).length = l.length := by
  cases hg : l[j]? with
  | none => simp [recheckStep, hg]
  | some pls =>
    simp only [recheckStep, hg]
    split_ifs <;> simp [List.length_set]

theorem recheckStep_curMax (l : List representation) (j : Nat) (b : Int) :
    curMax (recheckStep l j) b = curMax l b := by
  cases hg : l[j]? with
  | none => simp [recheckStep, hg]
  | some pls =>
    have hj : j < l.length := by
      rw [List.getElem?_eq_some] at hg
      exact hg.1
    have hplse : l[j] = pls := by
      rw [List.getElem?_eq_getElem hj] at hg
      exact Option.some.inj hg
    simp only [recheckStep, hg]
    split_ifs with h1 h2
    · exact curMax_set_bounded hj b (by rw [hplse]; exact le_curMax _ _)
        (by rw [hplse])
    · exact curMax_set_bounded hj b (by rw [hplse]) (by rw [hplse]; exact le_curMax _ _)
    · rfl

theorem recheckStep_get_ne (l : List representation) (j i : Nat) (hne : j ≠ i) :
    (recheckStep l j)[i]? = l[i]? := by
  cases hg : l[j]? with
  | none => simp [recheckStep, hg]
  | some pls =>
    simp only [recheckStep, hg]
    split_ifs <;>
      simp [List.getElem?_set_ne hne]

theorem foldl_recheckStep_curMax : ∀ (js : List Nat) (l : List representation)
    (b : Int), curMax (js.foldl recheckStep l) b = curMax l b := by
  intro js
  induction js with
  | nil => intro l b; rfl
  | cons j rest ih =>
    intro l b
    simp only [List.foldl_cons]
    rw [ih, recheckStep_curMax]

theorem foldl_recheckStep_length : ∀ (js : List Nat) (l : List representation),
    (js.foldl recheckStep l).length = l.length := by
  intro js
  induction js with
  | nil => intro l; rfl
  | cons j rest ih =>
    intro l
    simp only [List.foldl_cons]
    rw [ih, recheckStep_length]

theorem foldl_recheckStep_get_ne : ∀ (js : List Nat) (i : Nat),
    (∀ j ∈ js, j ≠ i) → ∀ (l : List representation),
    (js.foldl recheckStep l)[i]? = l[i]? := by
  intro js
  induction js with
  | nil => intro i _ l; rfl
  | cons j rest ih =>
    intro i h l
    simp only [List.foldl_cons]
    rw [ih i (fun x hx => h x (by simp [hx])) _,
      recheckStep_get_ne _ _ _ (h j (by simp))]

/-- The enabled element after the whole per-kind recheck: its sequence
number is the catch-up maximum over the original array. -/
theorem foldl_range_recheck_enable : ∀ (n : Nat) (l : List representation)
    (i : Nat) (pls : representation), i < n → l[i]? = some pls →
    (¬ pls.has_assoc_stream = true ∨ pls.discard < AVDISCARD_ALL) →
    pls.ctx_open = false →
    ((List.range n).foldl recheckStep l)[i]? = some { pls with
      cur_seg_offset := 0
      init_sec_buf_read_offset := 0
      cur_seq_no := curMax l pls.cur_seq_no
      ctx_open := true } := by
  intro n
  induction n with
  | zero => intro l i pls hi _ _ _; omega
  | succ m ih =>
    intro l i pls hi hget hneed hctx
    rw [List.range_succ, List.foldl_append, List.foldl_cons, List.foldl_nil]
    by_cases him : i < m
    · rw [recheckStep_get_ne _ _ _ (by omega)]
      exact ih l i pls him hget hneed hctx
    · have hieq : i = m := by omega
      subst hieq
      have hpres : ((List.range i).foldl recheckStep l)[i]? = some pls := by
        rw [foldl_recheckStep_get_ne (List.range i) i
          (fun j hj => by simp at hj; omega) l]
        exact hget
      have hlen : i < l.length := by
        rw [List.getElem?_eq_some] at hget
        exact hget.1
      simp only [recheckStep, hpres]
      rw [if_pos ⟨by simpa using hneed, by simp [hctx]⟩]
      rw [foldl_recheckStep_curMax]
      rw [List.getElem?_set_self
        (by rw [foldl_recheckStep_length]; exact hlen)]

/-- C7 counterexample: two video representations (one disabled with
cur_seq_no 2, one active with cur_seq_no 5) and one audio representation
at cur_seq_no 9.  Re-enabling the first video snaps it to 5, the
per-kind maximum, not to the cross-kind maximum 9 the claim requires. -/
def c7Video1 : representation := { cur_seq_no := 2, ctx_open := false }

/-- Second, active video representation for the C7 counterexample. -/
def c7Video2 : representation := { cur_seq_no := 5, ctx_open := true }

/-- Audio representation for the C7 counterexample. -/
def c7Audio : representation := { cur_seq_no := 9, ctx_open := true }

/-- Context for the C7 counterexample. -/
def c7Ctx : DASHContext :=
  { videos := [c7Video1, c7Video2], audios := [c7Audio] }

theorem C7_cross_kind_max_fails :
    ((dash_read_packet_gate c7Ctx).videos[0]?).map
      (fun r => r.cur_seq_no) = some 5 ∧
    ((dash_read_packet_gate c7Ctx).videos[0]?).map
      (fun r => r.cur_seq_no) ≠ some 9 ∧
    c7Audio.cur_seq_no = 9 := by
  refine ⟨by decide, by decide, by decide⟩

/-- C7 amended: when recheck_discard_flags re-enables index i of a kind
array (discard below AVDISCARD_ALL or no associated stream, and no open
inner parser), it snaps that representation's cur_seq_no to the maximum
cur_seq_no across the representations of the same kind only (active or
not), resets the read offsets, and reopens the parser; dash_read_packet
runs this separately per kind. -/
theorem C7_enable_snaps_to_per_kind_max (l : List representation) (i : Nat)
    (pls : representation) (hget : l[i]? = some pls)
    (hneed : ¬ pls.has_assoc_stream = true ∨ pls.discard < AVDISCARD_ALL)
    (hctx : pls.ctx_open = false) :
    ((recheck_discard_flags l)[i]?).map (fun r => r.cur_seq_no) =
      some (curMax l pls.cur_seq_no) ∧
    ((recheck_discard_flags l)[i]?).map (fun r => r.ctx_open) =
      some true := by
  have hlen : i < l.length := by
    rw [List.getElem?_eq_some] at hget
    exact hget.1
  have h := foldl_range_recheck_enable l.length l i pls hlen hget hneed hctx
  rw [recheck_discard_flags, h]
  exact ⟨rfl, rfl⟩

/-- Witness for C7_enable_snaps_to_per_kind_max on the two-video array
of the counterexample: the re-enabled video goes to 5, and the parser is
reopened. -/
theorem C7_enable_snaps_to_per_kind_max_witness :
    [c7Video1, c7Video2][0]? = some c7Video1 ∧
    c7Video1.ctx_open = false ∧
    ((recheck_discard_flags [c7Video1, c7Video2])[0]?).map
      (fun r => r.cur_seq_no) = some (curMax [c7Video1, c7Video2]
        c7Video1.cur_seq_no) ∧
    curMax [c7Video1, c7Video2] c7Video1.cur_seq_no = 5 := by
  have h := C7_enable_snaps_to_per_kind_max [c7Video1, c7Video2] 0 c7Video1
    rfl (Or.inr (by decide)) rfl
  exact ⟨rfl, rfl, h.1, by decide⟩

/-! ## Claim C10: get_duration_insec never fails -/

theorem isDigit_ne (c : Char) (h : c.isDigit = true) (x : Char)
    (hx : x.isDigit = false) : c ≠ x := by
  intro he
  rw [he, hx] at h
  cases h

theorem isDigit_not_whitespace (c : Char) (h : c.isDigit = true) :
    c.isWhitespace = false := by
  have h1 : c ≠ ' ' := isDigit_ne c h ' ' (by decide)
  have h2 : c ≠ '\t' := isDigit_ne c h '\t' (by decide)
  have h3 : c ≠ '\r' := isDigit_ne c h '\r' (by decide)
  have h4 : c ≠ '\n' := isDigit_ne c h '\n' (by decide)
  simp [Char.isWhitespace, h1, h2, h3, h4]

theorem dropWhile_head_not (c : Char) (t : List Char) (p : Char → Bool)
    (h : p c = false) : (c :: t).dropWhile p = c :: t := by
  simp [List.dropWhile, h]

theorem dropSign_not_sign (c : Char) (t : List Char) (h1 : c ≠ '-')
    (h2 : c ≠ '+') : dropSign (c :: t) = (false, c :: t) := by
  unfold dropSign
  split
  · next heq => injection heq with ha hb; simp_all
  · next heq => injection heq with ha hb; simp_all
  · rfl

theorem span_digits : ∀ (D X : List Char), (∀ ch ∈ D, Char.isDigit ch = true) →
    (∀ x, X.head? = some x → Char.isDigit x = false) →
    (D ++ X).span Char.isDigit = (D, X) := by
  intro D
  induction D with
  | nil =>
    intro X _ hX
    cases X with
    | nil => rfl
    | cons x t =>
      rw [List.span_eq_take_drop]
      simp [List.takeWhile, List.dropWhile, hX x rfl]
  | cons c D' ih =>
    intro X hD hX
    have hc : Char.isDigit c = true := hD c (by simp)
    have := ih X (fun ch hch => hD ch (by simp [hch])) hX
    rw [List.span_eq_take_drop] at this ⊢
    simp only [List.cons_append, List.takeWhile, List.dropWhile, hc]
    simp_all

theorem dropFrac_not_dot (c : Char) (t : List Char) (h : c ≠ '.') :
    dropFrac (c :: t) = ([], c :: t) := by
  unfold dropFrac
  split
  · next heq => injection heq with ha hb; simp_all
  · rfl

theorem dropFrac_dot (F : List Char) (u : Char) (rest : List Char)
    (hF : ∀ ch ∈ F, ch.isDigit = true) (hu : u.isDigit = false) :
    dropFrac ('.' :: (F ++ u :: rest)) = (F, u :: rest) := by
  have : dropFrac ('.' :: (F ++ u :: rest)) =
      (F ++ u :: rest).span Char.isDigit := rfl
  rw [this]
  exact span_digits F (u :: rest) hF
    (fun x hx => by injection hx with hx; exact hx ▸ hu)

/-- scanNumber on a digit block with an optional fractional part,
followed by a non-digit, non-dot unit character: the parsed value is the
integer part (truncation of the decimal value). -/
theorem scanNumber_digits (c0 : Char) (D' F : List Char) (u : Char)
    (rest : List Char)
    (hDd : ∀ ch ∈ c0 :: D', ch.isDigit = true)
    (hFd : ∀ ch ∈ F, ch.isDigit = true)
    (hu1 : u.isDigit = false) (hu2 : u ≠ '.') :
    scanNumber ((c0 :: D') ++ (if F.isEmpty then [] else '.' :: F) ++
      u :: rest) = some (natOfDigits (c0 :: D'), u, rest) := by
  have hc0 : Char.isDigit c0 = true := hDd c0 (by simp)
  have hmidhead : ∀ x, ((if F.isEmpty then [] else '.' :: F) ++
      u :: rest).head? = some x → Char.isDigit x = false := by
    intro x hx
    by_cases hF : F.isEmpty
    · simp only [if_pos hF, List.nil_append, List.head?_cons] at hx
      exact Option.some.inj hx ▸ hu1
    · simp only [if_neg hF, List.cons_append, List.head?_cons] at hx
      rw [← Option.some.inj hx]
      decide
  have hspan := span_digits (c0 :: D')
    ((if F.isEmpty then [] else '.' :: F) ++ u :: rest) hDd hmidhead
  have hfrac : dropFrac ((if F.isEmpty then [] else '.' :: F) ++ u :: rest) =
      (F, u :: rest) := by
    by_cases hF : F.isEmpty
    · rw [if_pos hF, List.nil_append, dropFrac_not_dot u rest hu2]
      have : F = [] := by simpa [List.isEmpty_iff] using hF
      rw [this]
    · rw [if_neg hF, List.cons_append]
      exact dropFrac_dot F u rest hFd hu1
  simp only [scanNumber, List.cons_append, List.append_assoc]
  rw [dropWhile_head_not c0 _ _ (isDigit_not_whitespace c0 hc0)]
  rw [dropSign_not_sign c0 _ (isDigit_ne c0 hc0 '-' (by decide))
    (isDigit_ne c0 hc0 '+' (by decide))]
  simp only [List.cons_append, List.append_assoc] at hspan
  rw [show ((c0 :: (D' ++ ((if F.isEmpty then [] else '.' :: F) ++
      u :: rest))).span Char.isDigit) =
      (c0 :: D', (if F.isEmpty then [] else '.' :: F) ++ u :: rest) from hspan]
  rw [hfrac]
  simp

theorem durLoop_nil (d h m s : Nat) :
    durLoop [] d h m s = (((d * 24 + h) * 60 + m) * 60 + s) % 2 ^ 32 := by
  simp [durLoop]

theorem durLoop_P (rest : List Char) (d h m s : Nat) :
    durLoop ('P' :: rest) d h m s = durLoop rest d h m s := by
  simp [durLoop]

theorem durLoop_T (rest : List Char) (d h m s : Nat) :
    durLoop ('T' :: rest) d h m s = durLoop rest d h m s := by
  simp [durLoop]

theorem durLoop_scan_none (c : Char) (cs : List Char) (d h m s : Nat)
    (hP : c ≠ 'P') (hT : c ≠ 'T') (hsc : scanNumber (c :: cs) = none) :
    durLoop (c :: cs) d h m s = 0 := by
  rw [durLoop.eq_def]
  split
  · next heq => exact absurd heq (by simp)
  · next heq =>
    injection heq with h1 _
    simp_all
  · next heq =>
    injection heq with h1 _
    simp_all
  · split
    · rfl
    · next v u rest heq =>
      rw [hsc] at heq
      cases heq

theorem durLoop_scan_some (c : Char) (cs : List Char) (d h m s v : Nat)
    (u : Char) (rest : List Char)
    (hP : c ≠ 'P') (hT : c ≠ 'T')
    (hsc : scanNumber (c :: cs) = some (v, u, rest)) :
    durLoop (c :: cs) d h m s =
      if u = 'D' then durLoop rest (v % 2 ^ 32) h m s
      else if u = 'H' then durLoop rest d (v % 2 ^ 32) m s
      else if u = 'M' then durLoop rest d h (v % 2 ^ 32) s
      else if u = 'S' then durLoop rest d h m (v % 2 ^ 32)
      else durLoop rest d h m s := by
  rw [durLoop.eq_def]
  split
  · next heq => exact absurd heq (by simp)
  · next heq =>
    injection heq with h1 _
    simp_all
  · next heq =>
    injection heq with h1 _
    simp_all
  · split
    · next heq =>
      rw [hsc] at heq
      cases heq
    · next v2 u2 rest2 heq =>
      rw [hsc] at heq
      injection heq with heq
      simp only [Prod.mk.injEq] at heq
      obtain ⟨hv, hu, hrest⟩ := heq
      subst hv
      subst hu
      subst hrest
      split <;> split_ifs <;> simp_all

/-- C10: get_duration_insec reports no error.  (a) Whenever the
remaining input does not start with P or T and does not scan as a number
followed by a unit character, the whole call returns 0, discarding any
fields already parsed.  (b) A number followed by an unrecognized unit
character contributes nothing: the loop continues on the rest with the
fields unchanged.  (c) A well-formed P[nD]T[nH][nM][nS] string (shown
with an optional fractional part on the seconds field) yields
((days*24 + hours)*60 + mins)*60 + secs in uint32 arithmetic, each field
truncated to its integer part. -/
theorem C10_get_duration_insec_total :
    (∀ (d h m s : Nat) (c : Char) (t : List Char),
      c ≠ 'P' → c ≠ 'T' → scanNumber (c :: t) = none →
      durLoop (c :: t) d h m s = 0) ∧
    (∀ (d h m s v : Nat) (u : Char) (rest : List Char) (c : Char)
      (t : List Char),
      c ≠ 'P' → c ≠ 'T' → scanNumber (c :: t) = some (v, u, rest) →
      u ≠ 'D' → u ≠ 'H' → u ≠ 'M' → u ≠ 'S' →
      durLoop (c :: t) d h m s = durLoop rest d h m s) ∧
    (∀ (Dd Dh Dm Ds Fs : List Char),
      Dd ≠ [] → (∀ ch ∈ Dd, ch.isDigit = true) →
      Dh ≠ [] → (∀ ch ∈ Dh, ch.isDigit = true) →
      Dm ≠ [] → (∀ ch ∈ Dm, ch.isDigit = true) →
      Ds ≠ [] → (∀ ch ∈ Ds, ch.isDigit = true) →
      (∀ ch ∈ Fs, ch.isDigit = true) →
      get_duration_insec ('P' :: Dd ++ 'D' :: 'T' :: Dh ++ 'H' :: Dm ++
        'M' :: Ds ++ (if Fs.isEmpty then [] else '.' :: Fs) ++ ['S']) =
        (((natOfDigits Dd * 24 + natOfDigits Dh) * 60 + natOfDigits Dm) * 60 +
          natOfDigits Ds) % 2 ^ 32) := by
  refine ⟨fun d h m s c t hP hT hsc => durLoop_scan_none c t d h m s hP hT hsc,
    fun d h m s v u rest c t hP hT hsc hD hH hM hS => ?_, ?_⟩
  · rw [durLoop_scan_some c t d h m s v u rest hP hT hsc]
    simp [hD, hH, hM, hS]
  · intro Dd Dh Dm Ds Fs hd1 hd2 hh1 hh2 hm1 hm2 hs1 hs2 hf2
    obtain ⟨cd, Dd', rfl⟩ : ∃ cd Dd', Dd = cd :: Dd' := by
      cases Dd with
      | nil => exact absurd rfl hd1
      | cons a b => exact ⟨a, b, rfl⟩
    obtain ⟨ch, Dh', rfl⟩ : ∃ ch Dh', Dh = ch :: Dh' := by
      cases Dh with
      | nil => exact absurd rfl hh1
      | cons a b => exact ⟨a, b, rfl⟩
    obtain ⟨cm, Dm', rfl⟩ : ∃ cm Dm', Dm = cm :: Dm' := by
      cases Dm with
      | nil => exact absurd rfl hm1
      | cons a b => exact ⟨a, b, rfl⟩
    obtain ⟨cs, Ds', rfl⟩ : ∃ cs Ds', Ds = cs :: Ds' := by
      cases Ds with
      | nil => exact absurd rfl hs1
      | cons a b => exact ⟨a, b, rfl⟩
    have hdig : ∀ (c : Char), c.isDigit = true → c ≠ 'P' ∧ c ≠ 'T' := by
      intro c hc
      exact ⟨isDigit_ne c hc 'P' (by decide), isDigit_ne c hc 'T' (by decide)⟩
    rw [get_duration_insec]
    simp only [List.cons_append, List.append_assoc, List.nil_append]
    rw [durLoop_P]
    have h1 := scanNumber_digits cd Dd' [] 'D'
      ('T' :: (ch :: Dh') ++ 'H' :: (cm :: Dm') ++ 'M' :: (cs :: Ds') ++
        (if Fs.isEmpty then [] else '.' :: Fs) ++ ['S'])
      hd2 (by simp) (by decide) (by decide)
    simp only [List.isEmpty_nil, if_pos, List.nil_append, List.cons_append,
      List.append_assoc] at h1 ⊢
    rw [durLoop_scan_some _ _ _ _ _ _ _ _ _ (hdig cd (hd2 cd (by simp))).1
      (hdig cd (hd2 cd (by simp))).2 h1]
    rw [if_pos rfl, durLoop_T]
    have h2 := scanNumber_digits ch Dh' [] 'H'
      (cm :: Dm' ++ 'M' :: (cs :: Ds') ++
        (if Fs.isEmpty then [] else '.' :: Fs) ++ ['S'])
      hh2 (by simp) (by decide) (by decide)
    simp only [List.isEmpty_nil, if_pos, List.nil_append, List.cons_append,
      List.append_assoc] at h2
    rw [durLoop_scan_some _ _ _ _ _ _ _ _ _ (hdig ch (hh2 ch (by simp))).1
      (hdig ch (hh2 ch (by simp))).2 h2]
    rw [if_neg (by decide), if_pos rfl]
    have h3 := scanNumber_digits cm Dm' [] 'M'
      (cs :: Ds' ++ (if Fs.isEmpty then [] else '.' :: Fs) ++ ['S'])
      hm2 (by simp) (by decide) (by decide)
    simp only [List.isEmpty_nil, if_pos, List.nil_append, List.cons_append,
      List.append_assoc] at h3
    rw [durLoop_scan_some _ _ _ _ _ _ _ _ _ (hdig cm (hm2 cm (by simp))).1
      (hdig cm (hm2 cm (by simp))).2 h3]
    rw [if_neg (by decide), if_neg (by decide), if_pos rfl]
    have h4 := scanNumber_digits cs Ds' Fs 'S' [] hs2 hf2 (by decide) (by decide)
    simp only [List.cons_append, List.append_assoc] at h4
    rw [durLoop_scan_some _ _ _ _ _ _ _ _ _ (hdig cs (hs2 cs (by simp))).1
      (hdig cs (hs2 cs (by simp))).2 h4]
    rw [if_neg (by decide), if_neg (by decide), if_neg (by decide), if_pos rfl]
    rw [durLoop_nil]
    omega

/-- Witness for C10 on the concrete string P1DT2H3M4.5S: days 1, hours
2, mins 3, secs 4.5 truncated to 4, total 93784 seconds. -/
theorem C10_get_duration_insec_total_witness :
    (['1'] : List Char) ≠ [] ∧
    get_duration_insec ('P' :: ['1'] ++ 'D' :: 'T' :: ['2'] ++ 'H' :: ['3'] ++
      'M' :: ['4'] ++ (if (['5'] : List Char).isEmpty then [] else '.' :: ['5']) ++
      ['S']) = 93784 := by
  refine ⟨by decide, ?_⟩
  rw [C10_get_duration_insec_total.2.2 ['1'] ['2'] ['3'] ['4'] ['5']
    (by decide) (by decide) (by decide) (by decide) (by decide) (by decide)
    (by decide) (by decide) (by decide)]
  decide

/-! ## Claim C8: dash_read_seek gating and the template+duration seek -/

/-- C8: dash_read_seek fails with AVERROR(ENOSYS) exactly when the
byte-seek flag is set or the presentation is live; and for a
template+duration representation (not single-fragment, no timeline,
positive fragment_duration) dash_seek sets cur_seq_no to
first_seq_no + ((seek_pos_msec * fragment_timescale) / fragment_duration)
/ 1000 with C truncating division. -/
theorem C8_seek_gate_and_template_formula (c : DASHContext)
    (time_base_den timestamp : Int) (flags : Nat) :
    ((dash_read_seek c time_base_den timestamp flags =
        .error AVERROR_ENOSYS) ↔
      (flags &&& AVSEEK_FLAG_BYTE ≠ 0 ∨ c.is_live = true)) ∧
    (∀ (pls : representation) (m : Int),
      pls.fragments.length ≠ 1 → pls.timelines = [] →
      0 < pls.fragment_duration →
      (dash_seek pls m).cur_seq_no =
        pls.first_seq_no + Int.tdiv (Int.tdiv (m * pls.fragment_timescale)
          pls.fragment_duration) 1000) := by
  constructor
  · unfold dash_read_seek
    by_cases hg : flags &&& AVSEEK_FLAG_BYTE ≠ 0 ∨ c.is_live = true
    · simp [hg]
    · simp [hg]
  · intro pls m hf ht hd
    simp [dash_seek, hf, ht, hd]

/-- The template+duration representation for the C8 witness:
startNumber 1, duration 2 ticks at timescale 1000. -/
def c8Rep : representation :=
  { fragment_duration := 2, fragment_timescale := 1000, first_seq_no := 1 }

/-- Witness for C8: a live context rejects any seek with ENOSYS, and
seeking c8Rep to 5000 ms lands on sequence number 2501. -/
theorem C8_seek_gate_and_template_formula_witness :
    (dash_read_seek liveCtx 1 0 0 = .error AVERROR_ENOSYS) ∧
    c8Rep.fragments.length ≠ 1 ∧ c8Rep.timelines = [] ∧
    0 < c8Rep.fragment_duration ∧
    (dash_seek c8Rep 5000).cur_seq_no = 2501 := by
  refine ⟨(C8_seek_gate_and_template_formula liveCtx 1 0 0).1.mpr
    (Or.inr rfl), by decide, rfl, by decide, ?_⟩
  rw [(C8_seek_gate_and_template_formula liveCtx 1 0 0).2 c8Rep 5000
    (by decide) rfl (by decide)]
  decide

/-! ## Claim C4: Period selection -/

/-- The invariant of the Period scan: relative to the document-order
list periods, the query point curr and the remembered period_start
prev.  While no Period has matched, min_period_diff still holds
INT64_MAX and the running period_start is at least prev (and exactly
prev while no default has been picked either); a matching node always
denotes a Period whose start is at or before curr at gap
min_period_diff; a default node always denotes a Period whose start is
at least prev. -/
structure ScanInv (curr : Nat) (prev : Int) (periods : List periodNode)
    (st : PeriodScanState) : Prop where
  match_min : st.matching_period_node = none →
    st.min_period_diff = 2 ^ 63 - 1
  match_prev : st.matching_period_node = none → prev ≤ st.period_start
  none_prev : st.matching_period_node = none →
    st.default_period_node = none → st.period_start = prev
  match_ok : ∀ i, st.matching_period_node = some i →
    ∃ q, periods[i]? = some q ∧ (q.pstart : Int) ≤ (curr : Int) ∧
      (curr : Int) - (q.pstart : Int) = st.min_period_diff
  default_ok : ∀ i, st.default_period_node = some i →
    ∃ q, periods[i]? = some q ∧ prev ≤ (q.pstart : Int)

theorem periodStepDefault_matching (st : PeriodScanState) (idx : Nat)
    (p : periodNode) :
    (periodStepDefault st idx p).matching_period_node =
      st.matching_period_node := by
  unfold periodStepDefault
  split_ifs <;> rfl

theorem periodStepDefault_min (st : PeriodScanState) (idx : Nat)
    (p : periodNode) :
    (periodStepDefault st idx p).min_period_diff = st.min_period_diff := by
  unfold periodStepDefault
  split_ifs <;> rfl

theorem periodStep_min_le (curr : Nat) (st : PeriodScanState) (idx : Nat)
    (p : periodNode) :
    (periodStep curr st idx p).min_period_diff ≤ st.min_period_diff := by
  unfold periodStep periodStepMatch
  by_cases h : 0 ≤ (curr : Int) - (p.pstart : Int) ∧
      (curr : Int) - (p.pstart : Int) ≤
        (periodStepDefault st idx p).min_period_diff
  · rw [if_pos h]
    have h2 := h.2
    rw [periodStepDefault_min] at h2
    exact h2
  · rw [if_neg h]
    rw [periodStepDefault_min]

theorem periodStep_matching_cases (curr : Nat) (st : PeriodScanState)
    (idx : Nat) (p : periodNode) :
    (periodStep curr st idx p).matching_period_node =
      st.matching_period_node ∨
    (periodStep curr st idx p).matching_period_node = some idx := by
  unfold periodStep periodStepMatch
  by_cases h : 0 ≤ (curr : Int) - (p.pstart : Int) ∧
      (curr : Int) - (p.pstart : Int) ≤
        (periodStepDefault st idx p).min_period_diff
  · rw [if_pos h]
    exact Or.inr rfl
  · rw [if_neg h]
    exact Or.inl (periodStepDefault_matching st idx p)

theorem periodStep_default_cases (curr : Nat) (st : PeriodScanState)
    (idx : Nat) (p : periodNode) :
    (periodStep curr st idx p).default_period_node =
      st.default_period_node ∨
    (periodStep curr st idx p).default_period_node = some idx := by
  unfold periodStep periodStepMatch periodStepDefault
  split_ifs <;> simp

theorem periodStep_inv {curr : Nat} {prev : Int} {periods : List periodNode}
    {st : PeriodScanState} {idx : Nat} {p : periodNode}
    (hp : periods[idx]? = some p)
    (hinv : ScanInv curr prev periods st) :
    ScanInv curr prev periods (periodStep curr st idx p) := by
  have hd : ScanInv curr prev periods (periodStepDefault st idx p) := by
    unfold periodStepDefault
    by_cases h1 : st.matching_period_node = none ∧
        st.period_start ≤ (p.pstart : Int)
    · rw [if_pos h1]
      constructor
      · intro _; exact hinv.match_min h1.1
      · intro _; exact le_trans (hinv.match_prev h1.1) h1.2
      · intro _ hcon; simp at hcon
      · intro i hi; exact hinv.match_ok i hi
      · intro i hi
        simp only [Option.some.injEq] at hi
        exact ⟨p, hi ▸ hp, le_trans (hinv.match_prev h1.1) h1.2⟩
    · rw [if_neg h1]
      exact hinv
  unfold periodStep periodStepMatch
  by_cases h2 : 0 ≤ (curr : Int) - (p.pstart : Int) ∧
      (curr : Int) - (p.pstart : Int) ≤
        (periodStepDefault st idx p).min_period_diff
  · rw [if_pos h2]
    constructor
    · intro hcon; simp at hcon
    · intro hcon; simp at hcon
    · intro hcon; simp at hcon
    · intro i hi
      simp only [Option.some.injEq] at hi
      refine ⟨p, hi ▸ hp, by omega, by simp⟩
    · intro i hi
      simp only [] at hi
      exact hd.default_ok i hi
  · rw [if_neg h2]
    exact hd

theorem periodScan_keep_match {curr : Nat} : ∀ (ps : List periodNode)
    (idx : Nat) (st : PeriodScanState) (i : Nat),
    st.matching_period_node = some i →
    ∃ j, (periodScan curr ps idx st).matching_period_node = some j := by
  intro ps
  induction ps with
  | nil => intro idx st i h; exact ⟨i, h⟩
  | cons p rest ih =>
    intro idx st i h
    rcases periodStep_matching_cases curr st idx p with hc | hc
    · exact ih (idx + 1) _ i (hc.trans h)
    · exact ih (idx + 1) _ idx hc

theorem periodScan_keep_default {curr : Nat} : ∀ (ps : List periodNode)
    (idx : Nat) (st : PeriodScanState) (i : Nat),
    st.default_period_node = some i →
    ∃ j, (periodScan curr ps idx st).default_period_node = some j := by
  intro ps
  induction ps with
  | nil => intro idx st i h; exact ⟨i, h⟩
  | cons p rest ih =>
    intro idx st i h
    rcases periodStep_default_cases curr st idx p with hc | hc
    · exact ih (idx + 1) _ i (hc.trans h)
    · exact ih (idx + 1) _ idx hc

theorem periodScan_inv {curr : Nat} {prev : Int} {periods : List periodNode} :
    ∀ (ps : List periodNode) (idx : Nat) (st : PeriodScanState),
    (∀ (k : Nat) (q : periodNode), ps[k]? = some q →
      periods[idx + k]? = some q) →
    ScanInv curr prev periods st →
    ScanInv curr prev periods (periodScan curr ps idx st) := by
  intro ps
  induction ps with
  | nil => intro idx st _ hinv; exact hinv
  | cons p rest ih =>
    intro idx st hsl hinv
    have hp : periods[idx]? = some p := by
      have := hsl 0 p (by simp)
      simpa using this
    refine ih (idx + 1) _ (fun k q hk => ?_) (periodStep_inv hp hinv)
    have := hsl (k + 1) q (by simpa using hk)
    rw [show idx + 1 + k = idx + (k + 1) from by omega]
    exact this

theorem periodScan_min_mono {curr : Nat} : ∀ (ps : List periodNode)
    (idx : Nat) (st : PeriodScanState),
    (periodScan curr ps idx st).min_period_diff ≤ st.min_period_diff := by
  intro ps
  induction ps with
  | nil => intro idx st; exact le_rfl
  | cons p rest ih =>
    intro idx st
    exact le_trans (ih (idx + 1) _) (periodStep_min_le curr st idx p)

theorem periodScan_min_le {curr : Nat} : ∀ (ps : List periodNode)
    (idx : Nat) (st : PeriodScanState) (p : periodNode), p ∈ ps →
    (p.pstart : Int) ≤ (curr : Int) →
    (periodScan curr ps idx st).min_period_diff ≤
      (curr : Int) - (p.pstart : Int) := by
  intro ps
  induction ps with
  | nil => intro idx st p hp; simp at hp
  | cons p0 rest ih =>
    intro idx st p hp hle
    simp only [periodScan]
    rcases List.mem_cons.mp hp with hp | hp
    · subst hp
      by_cases hfire : 0 ≤ (curr : Int) - (p.pstart : Int) ∧
          (curr : Int) - (p.pstart : Int) ≤
            (periodStepDefault st idx p).min_period_diff
      · have hstep : (periodStep curr st idx p).min_period_diff =
            (curr : Int) - (p.pstart : Int) := by
          unfold periodStep periodStepMatch
          rw [if_pos hfire]
        exact le_trans (periodScan_min_mono rest (idx + 1) _)
          (le_of_eq hstep)
      · rw [periodStepDefault_min] at hfire
        have hlt : st.min_period_diff < (curr : Int) - (p.pstart : Int) := by
          omega
        have hstep : (periodStep curr st idx p).min_period_diff =
            st.min_period_diff := by
          unfold periodStep periodStepMatch
          rw [if_neg (by rw [periodStepDefault_min]; exact hfire)]
          exact periodStepDefault_min st idx p
        exact le_trans (le_trans (periodScan_min_mono rest (idx + 1) _)
          (le_of_eq hstep)) (le_of_lt hlt)
    · exact ih (idx + 1) _ p hp hle

theorem periodScan_progress_match {curr : Nat}
    (hcurr : curr ≤ 2 ^ 63 - 1) : ∀ (ps : List periodNode)
    (idx : Nat) (st : PeriodScanState),
    (st.matching_period_node = none → st.min_period_diff = 2 ^ 63 - 1) →
    (∃ p ∈ ps, (p.pstart : Int) ≤ (curr : Int)) →
    ∃ j, (periodScan curr ps idx st).matching_period_node = some j := by
  intro ps
  induction ps with
  | nil => intro idx st _ h; simp at h
  | cons p0 rest ih =>
    intro idx st hmin h
    simp only [periodScan]
    cases hm : st.matching_period_node with
    | some i =>
      rcases periodStep_matching_cases curr st idx p0 with hc | hc
      · exact periodScan_keep_match rest (idx + 1) _ i (hc.trans hm)
      · exact periodScan_keep_match rest (idx + 1) _ idx hc
    | none =>
      obtain ⟨p, hp, hple⟩ := h
      rcases List.mem_cons.mp hp with hp | hp
      · subst hp
        have hfire : (periodStep curr st idx p).matching_period_node =
            some idx := by
          unfold periodStep periodStepMatch
          rw [if_pos ⟨by omega, by
            rw [periodStepDefault_min, hmin hm]
            omega⟩]
        exact periodScan_keep_match rest (idx + 1) _ idx hfire
      · refine ih (idx + 1) _ (fun h2 => ?_) ⟨p, hp, hple⟩
        by_cases hf : 0 ≤ (curr : Int) - (p0.pstart : Int) ∧
            (curr : Int) - (p0.pstart : Int) ≤
              (periodStepDefault st idx p0).min_period_diff
        · exfalso
          have hsome : (periodStep curr st idx p0).matching_period_node =
              some idx := by
            unfold periodStep periodStepMatch
            rw [if_pos hf]
          rw [hsome] at h2
          cases h2
        · have hmeq : (periodStep curr st idx p0).min_period_diff =
              st.min_period_diff := by
            unfold periodStep periodStepMatch
            rw [if_neg hf]
            exact periodStepDefault_min st idx p0
          have hmateq : (periodStep curr st idx p0).matching_period_node =
              st.matching_period_node := by
            unfold periodStep periodStepMatch
            rw [if_neg hf]
            exact periodStepDefault_matching st idx p0
          rw [hmeq]
          rw [hmateq] at h2
          exact hmin h2

theorem periodScan_no_match {curr : Nat} : ∀ (ps : List periodNode)
    (idx : Nat) (st : PeriodScanState),
    (∀ p ∈ ps, ¬ ((p.pstart : Int) ≤ (curr : Int))) →
    st.matching_period_node = none →
    (periodScan curr ps idx st).matching_period_node = none := by
  intro ps
  induction ps with
  | nil => intro idx st _ h; exact h
  | cons p0 rest ih =>
    intro idx st hall hm
    simp only [periodScan]
    refine ih (idx + 1) _ (fun p hp => hall p (by simp [hp])) ?_
    have h0 := hall p0 (by simp)
    unfold periodStep periodStepMatch
    rw [if_neg (by omega : ¬ (0 ≤ (curr : Int) - (p0.pstart : Int) ∧
      (curr : Int) - (p0.pstart : Int) ≤
        (periodStepDefault st idx p0).min_period_diff))]
    rw [periodStepDefault_matching]
    exact hm

theorem periodScan_progress_default {curr : Nat} {prev : Int}
    {periods : List periodNode} : ∀ (ps : List periodNode)
    (idx : Nat) (st : PeriodScanState), ScanInv curr prev periods st →
    (∀ (k : Nat) (q : periodNode), ps[k]? = some q →
      periods[idx + k]? = some q) →
    (∃ p ∈ ps, prev ≤ (p.pstart : Int)) →
    (∃ j, (periodScan curr ps idx st).matching_period_node = some j) ∨
    (∃ j, (periodScan curr ps idx st).default_period_node = some j) := by
  intro ps
  induction ps with
  | nil => intro idx st _ _ h; simp at h
  | cons p0 rest ih =>
    intro idx st hinv hsl h
    simp only [periodScan]
    have hp0 : periods[idx]? = some p0 := by
      have := hsl 0 p0 (by simp)
      simpa using this
    cases hm : st.matching_period_node with
    | some i =>
      rcases periodStep_matching_cases curr st idx p0 with hc | hc
      · exact Or.inl (periodScan_keep_match rest (idx + 1) _ i (hc.trans hm))
      · exact Or.inl (periodScan_keep_match rest (idx + 1) _ idx hc)
    | none =>
      cases hd : st.default_period_node with
      | some i =>
        rcases periodStep_default_cases curr st idx p0 with hc | hc
        · exact Or.inr (periodScan_keep_default rest (idx + 1) _ i
            (hc.trans hd))
        · exact Or.inr (periodScan_keep_default rest (idx + 1) _ idx hc)
      | none =>
        obtain ⟨p, hp, hple⟩ := h
        rcases List.mem_cons.mp hp with hp | hp
        · subst hp
          have hps : st.period_start = prev := hinv.none_prev hm hd
          have hfire : (periodStepDefault st idx p).default_period_node =
              some idx := by
            unfold periodStepDefault
            rw [if_pos ⟨hm, by omega⟩]
          have hsd : (periodStep curr st idx p).default_period_node =
              some idx := by
            have hstep : (periodStep curr st idx p).default_period_node =
                (periodStepDefault st idx p).default_period_node := by
              unfold periodStep periodStepMatch
              split_ifs <;> rfl
            rw [hstep, hfire]
          exact Or.inr (periodScan_keep_default rest (idx + 1) _ idx hsd)
        · refine ih (idx + 1) _ (periodStep_inv hp0 hinv)
            (fun k q hk => ?_) ⟨p, hp, hple⟩
          have := hsl (k + 1) q (by simpa using hk)
          rw [show idx + 1 + k = idx + (k + 1) from by omega]
          exact this

theorem periodScan_nofire {curr : Nat} {prev : Int} : ∀ (ps : List periodNode)
    (idx : Nat) (st : PeriodScanState),
    (∀ p ∈ ps, (curr : Int) < (p.pstart : Int) ∧ (p.pstart : Int) < prev) →
    st.matching_period_node = none → st.default_period_node = none →
    st.period_start = prev →
    periodScan curr ps idx st = st := by
  intro ps
  induction ps with
  | nil => intro idx st _ _ _ _; rfl
  | cons p0 rest ih =>
    intro idx st hall hm hd hps
    have hp0 := hall p0 (by simp)
    have hstep : periodStep curr st idx p0 = st := by
      unfold periodStep periodStepMatch periodStepDefault
      rw [if_neg (by omega : ¬ (st.matching_period_node = none ∧
        st.period_start ≤ (p0.pstart : Int)))]
      rw [if_neg (by omega : ¬ (0 ≤ (curr : Int) - (p0.pstart : Int) ∧
        (curr : Int) - (p0.pstart : Int) ≤ st.min_period_diff))]
    simp only [periodScan, hstep]
    exact ih (idx + 1) st (fun p hp => hall p (by simp [hp])) hm hd hps

/-- Claim C4, counterexample to the default-Period clause as stated.
With curr_timepoint 0 and Periods at starts 5 then 4 (no Period starts
at or before 0, so no Period matches), both Periods have start at least
the remembered period_start 0, so the latest such Period is the one at
index 1; but the scan keeps index 0 as default, because a Period only
becomes the default when its start is at least the RUNNING period_start,
which the accepted default at index 0 has already raised to 5. -/
theorem C4_default_period_as_claimed_fails :
    parse_manifest_select_period 0 {} [⟨5, 7⟩, ⟨4, 9⟩] =
      .ok (0, ⟨none, some 0, 2 ^ 63 - 1, 5, 7, 7⟩) ∧
    ({} : DASHContext).period_start ≤ (((4 : Nat) : Int)) ∧
    ([⟨5, 7⟩, ⟨4, 9⟩] : List periodNode)[1]? = some ⟨4, 9⟩ ∧
    (0 : Nat) ≠ 1 := by
  refine ⟨rfl, by decide, by decide, by decide⟩

/-- Claim C4 (amended): during (re)parse with curr_timepoint at most
INT64_MAX, parse_manifest fails with AVERROR_INVALIDDATA exactly when
every Period starts strictly after curr_timepoint and strictly before
the remembered period_start; and whenever a Period index is selected, it
denotes a real Period that either starts at or before curr_timepoint
with the smallest gap among all such Periods (the matching case), or
starts strictly after curr_timepoint and at or after the remembered
period_start (the default case, a record-setting scan rather than the
latest qualifying Period). -/
theorem C4_period_selection (curr : Nat) (c : DASHContext)
    (periods : List periodNode) (hcurr : curr ≤ 2 ^ 63 - 1) :
    (parse_manifest_select_period curr c periods =
        .error AVERROR_INVALIDDATA ↔
      ∀ p ∈ periods, (curr : Int) < (p.pstart : Int) ∧
        (p.pstart : Int) < c.period_start) ∧
    (∀ i st, parse_manifest_select_period curr c periods = .ok (i, st) →
      ∃ q, periods[i]? = some q ∧
        (((q.pstart : Int) ≤ (curr : Int) ∧
            ∀ p ∈ periods, (p.pstart : Int) ≤ (curr : Int) →
              (curr : Int) - (q.pstart : Int) ≤
                (curr : Int) - (p.pstart : Int)) ∨
          ((curr : Int) < (q.pstart : Int) ∧
            c.period_start ≤ (q.pstart : Int)))) := by
  have hinv0 : ScanInv curr c.period_start periods
      (⟨none, none, 2 ^ 63 - 1, c.period_start, c.period_duration,
        c.media_presentation_duration⟩ : PeriodScanState) := by
    refine ⟨fun _ => rfl, fun _ => le_rfl, fun _ _ => rfl, ?_, ?_⟩
    · intro i hi; simp at hi
    · intro i hi; simp at hi
  have hinvF : ScanInv curr c.period_start periods
      (periodScan curr periods 0
        ⟨none, none, 2 ^ 63 - 1, c.period_start, c.period_duration,
          c.media_presentation_duration⟩) :=
    periodScan_inv periods 0 _ (fun k q hk => by simpa using hk) hinv0
  constructor
  · constructor
    · intro herr
      simp only [parse_manifest_select_period] at herr
      cases hm : (periodScan curr periods 0
          ⟨none, none, 2 ^ 63 - 1, c.period_start, c.period_duration,
            c.media_presentation_duration⟩).matching_period_node with
      | some j =>
        simp only [hm] at herr
        exact Except.noConfusion herr
      | none =>
        simp only [hm] at herr
        cases hd : (periodScan curr periods 0
            ⟨none, none, 2 ^ 63 - 1, c.period_start, c.period_duration,
              c.media_presentation_duration⟩).default_period_node with
        | some j =>
          simp only [hd] at herr
          exact Except.noConfusion herr
        | none =>
          intro p hp
          constructor
          · by_contra hle
            push_neg at hle
            obtain ⟨j, hj⟩ := periodScan_progress_match hcurr periods 0
              (⟨none, none, 2 ^ 63 - 1, c.period_start, c.period_duration,
                c.media_presentation_duration⟩ : PeriodScanState)
              (fun _ => rfl) ⟨p, hp, hle⟩
            rw [hm] at hj
            exact Option.noConfusion hj
          · by_contra hge
            push_neg at hge
            rcases periodScan_progress_default periods 0 _ hinv0
                (fun k q hk => by simpa using hk) ⟨p, hp, hge⟩ with
              ⟨j, hj⟩ | ⟨j, hj⟩
            · rw [hm] at hj
              exact Option.noConfusion hj
            · rw [hd] at hj
              exact Option.noConfusion hj
    · intro hall
      have hsc := periodScan_nofire periods 0
        (⟨none, none, 2 ^ 63 - 1, c.period_start, c.period_duration,
          c.media_presentation_duration⟩ : PeriodScanState) hall rfl rfl rfl
      simp only [parse_manifest_select_period, hsc]
  · intro i st hok
    simp only [parse_manifest_select_period] at hok
    cases hm : (periodScan curr periods 0
        ⟨none, none, 2 ^ 63 - 1, c.period_start, c.period_duration,
          c.media_presentation_duration⟩).matching_period_node with
    | some j =>
      simp only [hm, Except.ok.injEq, Prod.mk.injEq] at hok
      obtain ⟨hij, hst⟩ := hok
      subst hij
      obtain ⟨q, hq, hqle, hqmin⟩ := hinvF.match_ok j hm
      refine ⟨q, hq, Or.inl ⟨hqle, ?_⟩⟩
      intro p hp hple
      have hle := periodScan_min_le periods 0
        (⟨none, none, 2 ^ 63 - 1, c.period_start, c.period_duration,
          c.media_presentation_duration⟩ : PeriodScanState) p hp hple
      omega
    | none =>
      simp only [hm] at hok
      cases hd : (periodScan curr periods 0
          ⟨none, none, 2 ^ 63 - 1, c.period_start, c.period_duration,
            c.media_presentation_duration⟩).default_period_node with
      | some j =>
        simp only [hd, Except.ok.injEq, Prod.mk.injEq] at hok
        obtain ⟨hij, hst⟩ := hok
        subst hij
        obtain ⟨q, hq, hqge⟩ := hinvF.default_ok j hd
        refine ⟨q, hq, Or.inr ⟨?_, hqge⟩⟩
        by_contra hle
        push_neg at hle
        have hqmem : q ∈ periods := by
          obtain ⟨hlt, hEq⟩ := List.getElem?_eq_some.mp hq
          exact List.mem_iff_getElem.mpr ⟨j, hlt, hEq⟩
        obtain ⟨j2, hj2⟩ := periodScan_progress_match hcurr periods 0
          (⟨none, none, 2 ^ 63 - 1, c.period_start, c.period_duration,
            c.media_presentation_duration⟩ : PeriodScanState)
          (fun _ => rfl) ⟨q, hqmem, hle⟩
        rw [hm] at hj2
        exact Option.noConfusion hj2
      | none =>
        simp only [hd] at hok
        exact Except.noConfusion hok

/-- Witness for the amended C4 theorem at curr_timepoint 7, the empty
context and Periods at starts 5 then 4: the scan selects index 0, the
Period at start 5, whose gap 2 is minimal. -/
theorem C4_period_selection_witness :
    ∃ q, ([⟨5, 7⟩, ⟨4, 9⟩] : List periodNode)[0]? = some q ∧
      (((q.pstart : Int) ≤ ((7 : Nat) : Int) ∧
          ∀ p ∈ ([⟨5, 7⟩, ⟨4, 9⟩] : List periodNode),
            (p.pstart : Int) ≤ ((7 : Nat) : Int) →
              ((7 : Nat) : Int) - (q.pstart : Int) ≤
                ((7 : Nat) : Int) - (p.pstart : Int)) ∨
        (((7 : Nat) : Int) < (q.pstart : Int) ∧
          ({} : DASHContext).period_start ≤ (q.pstart : Int))) :=
  (C4_period_selection 7 {} [⟨5, 7⟩, ⟨4, 9⟩] (by norm_num)).2 0
    ⟨some 0, some 0, 2, 5, 7, 7⟩ rfl

/-! ## Claim C3: refresh failure and the snapshot -/

/-- The driven video representation of the pre-refresh context for the
C3 run: its id is "v1". -/
def c3OldRep : representation :=
  { id := some "v1" }

/-- The pre-refresh context for the C3 run: one video representation
with id "v1" and a base URL. -/
def c3OldCtx : DASHContext :=
  { videos := [c3OldRep], base_url := some "http://example.invalid/old.mpd" }

/-- The context as parse_manifest leaves it during the C3 refresh: the
refreshed manifest has only a video representation with the different id
"v2", and a new base URL. -/
def c3ParsedCtx : DASHContext :=
  { videos := [{ id := some "v2" }],
    base_url := some "http://example.invalid/new.mpd" }

/-- Claim C3: refuted by the code path at dashdec.c lines 1790-1794.
When the refreshed manifest parses successfully but is missing a
representation whose id matches the driven representation, refresh_manifest
returns AVERROR_INVALIDDATA through a bare return that bypasses the
finish block, so the context keeps the newly parsed shadow video list
and the newly parsed base_url instead of the pre-refresh snapshot: live
state IS left half-replaced on this error path. -/
theorem C3_refresh_failure_keeps_shadow_state :
    (refresh_manifest 0 c3OldCtx true 0 0 c3ParsedCtx).1 =
      AVERROR_INVALIDDATA ∧
    (refresh_manifest 0 c3OldCtx true 0 0 c3ParsedCtx).2.videos =
      c3ParsedCtx.videos ∧
    (refresh_manifest 0 c3OldCtx true 0 0 c3ParsedCtx).2.videos ≠
      c3OldCtx.videos ∧
    (refresh_manifest 0 c3OldCtx true 0 0 c3ParsedCtx).2.base_url =
      c3ParsedCtx.base_url ∧
    (refresh_manifest 0 c3OldCtx true 0 0 c3ParsedCtx).2.base_url ≠
      c3OldCtx.base_url := by
  refine ⟨by decide, by decide, by decide, by decide, by decide⟩

end DashDec
